import Mathlib

/-!
Verification development for the orchwf workflow orchestration engine.

The definitions below are a shallow embedding of the Go sources:
  * types.go              (statuses, retry policies, definitions, instances)
  * state_manager.go      (the in-memory state manager)
  * the orchestrator      (RegisterWorkflow / StartWorkflow / ResumeWorkflow /
                           executeWorkflow / executeSteps / executeStep /
                           prepareStepInput / mergeStepOutput /
                           calculateRetryInterval / pow)
  * the workflow builder  (WorkflowBuilder.Build, StepBuilder, RetryPolicyBuilder)

Modelling conventions, chosen once and used throughout:
  * Go string-keyed maps become association lists with update-or-append
    assignment (`lset`).  Go's map iteration order is unspecified; wherever the
    source iterates a map (GetWorkflowSteps, overlay loops) the model iterates
    the association list in insertion order, which is one admissible order.
  * Dynamically typed map values (interface{}) become the closed `Value` type
    (integers, strings, nested maps), enough for every value the engine and its
    tests construct.
  * time.Time becomes a logical clock (a natural number ticked at each
    time.Now()); time.Duration becomes an integer number of nanoseconds;
    float64 becomes the rationals, with the float64 -> time.Duration conversion
    modelled as truncation toward zero.
  * uuid.New() becomes a counter producing "uuid-0", "uuid-1", ...
  * Goroutines for async steps are determinised: the async steps of a wave run
    one after the other in the sorted order, all of them to completion, and the
    first collected required-step error is returned afterwards - exactly the
    observable behaviour of the source's WaitGroup + error channel.
  * Step executors are closures with internal state in the tests; they are
    modelled as pure functions of the invocation count (threaded in `Sys`)
    and the input map.
-/

set_option maxHeartbeats 1000000

namespace Orchwf

/-- Association-list assignment with Go map semantics: replace the binding if
the key is present, otherwise append it. -/
def lset {α : Type} : List (String × α) → String → α → List (String × α)
  | [], k, v => [(k, v)]
  | (k', v') :: rest, k, v =>
    if k' = k then (k', v) :: rest else (k', v') :: lset rest k v

/-- Association-list lookup (Go map read). -/
def llookup {α : Type} : List (String × α) → String → Option α
  | [], _ => none
  | (k', v') :: rest, k => if k' = k then some v' else llookup rest k

/-- Dynamically typed values stored in the engine's string-keyed maps
(Go interface{} restricted to what the engine and tests construct). -/
inductive Value where
  | int (n : Int)
  | str (s : String)
  | map (entries : List (String × Value))
deriving Repr

/-- A Go map[string]interface{}. -/
abbrev VMap := List (String × Value)

/-- Copy every entry of src into dst (a Go for-range copy loop); entries later
in src win, mirroring that a Go map holds one binding per key. -/
def vmOverlay (dst src : VMap) : VMap :=
  src.foldl (fun acc kv => lset acc kv.1 kv.2) dst

/-- WorkflowStatus (types.go). -/
inductive WorkflowStatus where
  | pending | running | completed | failed | cancelled | retrying
deriving DecidableEq, Repr

/-- StepStatus (types.go). -/
inductive StepStatus where
  | pending | running | completed | failed | skipped | retrying
deriving DecidableEq, Repr

/-- RetryPolicy (types.go); intervals in nanoseconds, multiplier a rational
standing for the float64. -/
structure RetryPolicy where
  MaxAttempts : Int
  InitialInterval : Int
  MaxInterval : Int
  Multiplier : ℚ
  RetryableErrors : List String
deriving DecidableEq, Repr

/-- The hand-rolled pow helper of the orchestrator: pow(base, exp) returns 1
when exp == 0 and otherwise multiplies base together int(exp) times starting
from base (so any exponent below 1 yields base itself). -/
def goPow (base : ℚ) (exp : Int) : ℚ :=
  if exp = 0 then 1 else base ^ ((exp - 1).toNat + 1)

/-- Truncation toward zero of a rational to an integer: the float64 ->
time.Duration conversion in calculateRetryInterval. -/
def ratTrunc (q : ℚ) : Int := q.num.tdiv q.den

/-- Orchestrator.calculateRetryInterval: zero initial interval short-circuits
to zero; otherwise initial * multiplier^(attempt-1) truncated to a duration
and capped by MaxInterval only when MaxInterval is positive. -/
def calculateRetryInterval (policy : RetryPolicy) (attempt : Int) : Int :=
  if policy.InitialInterval = 0 then 0
  else
    let interval : ℚ := (policy.InitialInterval : ℚ) * goPow policy.Multiplier (attempt - 1)
    if policy.MaxInterval > 0 ∧ ratTrunc interval > policy.MaxInterval then policy.MaxInterval
    else ratTrunc interval

/-- A step executor: the Go closure becomes a pure function of the invocation
count (the closure's internal state) and the input map, producing an output
map or an error message. -/
abbrev StepExecutor := Nat → VMap → Except String VMap

/-- StepDefinition (types.go, including the Priority field used by the
orchestrator and set by StepBuilder.WithPriority). The compensator is carried
but never invoked by the engine. -/
structure StepDefinition where
  ID : String
  Name : String
  Description : String := ""
  Executor : StepExecutor
  Dependencies : List String := []
  RetryPolicy : Option RetryPolicy := none
  Timeout : Int := 0
  Required : Bool := true
  Async : Bool := false
  Priority : Int := 0

/-- WorkflowDefinition (types.go). -/
structure WorkflowDefinition where
  ID : String
  Name : String
  Description : String := ""
  Version : String := "1.0.0"
  Steps : List StepDefinition := []
  Metadata : VMap := []

/-- StepInstance (types.go); timestamps are logical-clock values. -/
structure StepInstance where
  ID : String
  StepID : String
  WorkflowInstID : String
  Status : StepStatus
  Input : VMap := []
  Output : VMap := []
  StartedAt : Option Nat := none
  CompletedAt : Option Nat := none
  Error : Option String := none
  RetryCount : Int := 0
  LastRetryAt : Option Nat := none
  DurationMs : Int := 0
  ExecutionOrder : Int := 0
deriving Repr

/-- WorkflowInstance (types.go). -/
structure WorkflowInstance where
  ID : String
  WorkflowID : String
  Status : WorkflowStatus
  Input : VMap := []
  Output : VMap := []
  Context : VMap := []
  CurrentStepID : String := ""
  Steps : List StepInstance := []
  StartedAt : Nat := 0
  CompletedAt : Option Nat := none
  Error : Option String := none
  RetryCount : Int := 0
  LastRetryAt : Option Nat := none
  Metadata : VMap := []
  TraceID : String := ""
  CorrelationID : String := ""
  BusinessID : String := ""
deriving Repr

/-- WorkflowEvent (types.go). -/
structure WorkflowEvent where
  ID : String
  WorkflowInstID : String
  StepInstID : Option String
  EventType : String
  EventData : VMap
  Timestamp : Nat
deriving Repr

/-- WorkflowResult (types.go); Duration in clock ticks. -/
structure WorkflowResult where
  Success : Bool
  WorkflowInst : WorkflowInstance
  Output : VMap := []
  Error : Option String := none
  Duration : Int := 0
deriving Repr

/-- WorkflowInstance.IsCompleted: terminal workflow statuses. -/
def WorkflowInstance.IsCompleted (w : WorkflowInstance) : Bool :=
  w.Status = .completed || w.Status = .failed || w.Status = .cancelled

/-- StepInstance.IsCompleted: terminal step statuses. -/
def StepInstance.IsCompleted (s : StepInstance) : Bool :=
  s.Status = .completed || s.Status = .failed || s.Status = .skipped

/-- InMemoryStateManager (state_manager.go): three string-keyed maps. In the
pure model the deep copies taken on save and read are the identity, so the
maps store the entity values directly; the reference-sharing subtleties of the
Go deep copy are studied separately in the heap model below. -/
structure InMemoryStateManager where
  workflows : List (String × WorkflowInstance) := []
  steps : List (String × StepInstance) := []
  events : List (String × WorkflowEvent) := []
deriving Repr

namespace InMemoryStateManager

/-- SaveWorkflow: store (a copy of) the instance under its ID; never fails. -/
def SaveWorkflow (m : InMemoryStateManager) (w : WorkflowInstance) : InMemoryStateManager :=
  { m with workflows := lset m.workflows w.ID w }

/-- GetWorkflow: return (a copy of) the stored instance, or a not-found
error. -/
def GetWorkflow (m : InMemoryStateManager) (workflowInstID : String) :
    Except String WorkflowInstance :=
  match llookup m.workflows workflowInstID with
  | some w => .ok w
  | none => .error ("workflow not found: " ++ workflowInstID)

/-- UpdateWorkflowStatus with automatic CompletedAt stamp on terminal
statuses; now is the value of time.Now(). -/
def UpdateWorkflowStatus (m : InMemoryStateManager) (workflowInstID : String)
    (status : WorkflowStatus) (now : Nat) : Except String InMemoryStateManager :=
  match llookup m.workflows workflowInstID with
  | none => .error ("workflow not found: " ++ workflowInstID)
  | some w =>
    let w := { w with Status := status }
    let w :=
      if status = .completed ∨ status = .failed ∨ status = .cancelled then
        { w with CompletedAt := some now }
      else w
    .ok { m with workflows := lset m.workflows workflowInstID w }

/-- UpdateWorkflowOutput: replace the stored output with a copy of the
argument. -/
def UpdateWorkflowOutput (m : InMemoryStateManager) (workflowInstID : String)
    (output : VMap) : Except String InMemoryStateManager :=
  match llookup m.workflows workflowInstID with
  | none => .error ("workflow not found: " ++ workflowInstID)
  | some w =>
    .ok { m with workflows := lset m.workflows workflowInstID ({ w with Output := vmOverlay [] output }) }

/-- UpdateWorkflowError: record the message, force status failed and stamp
CompletedAt. -/
def UpdateWorkflowError (m : InMemoryStateManager) (workflowInstID : String)
    (errMsg : String) (now : Nat) : Except String InMemoryStateManager :=
  match llookup m.workflows workflowInstID with
  | none => .error ("workflow not found: " ++ workflowInstID)
  | some w =>
    let w2 := { w with Error := some errMsg, Status := .failed, CompletedAt := some now }
    .ok { m with workflows := lset m.workflows workflowInstID w2 }

/-- SaveStep: store (a copy of) the step under its instance ID. -/
def SaveStep (m : InMemoryStateManager) (s : StepInstance) : InMemoryStateManager :=
  { m with steps := lset m.steps s.ID s }

/-- GetStep: return (a copy of) the stored step, or a not-found error. -/
def GetStep (m : InMemoryStateManager) (stepInstID : String) : Except String StepInstance :=
  match llookup m.steps stepInstID with
  | some s => .ok s
  | none => .error ("step not found: " ++ stepInstID)

/-- GetWorkflowSteps: every stored step whose WorkflowInstID matches, in map
iteration order (modelled as insertion order); the source applies no sort. -/
def GetWorkflowSteps (m : InMemoryStateManager) (workflowInstID : String) :
    List StepInstance :=
  (m.steps.map Prod.snd).filter (fun s => s.WorkflowInstID == workflowInstID)

/-- UpdateStepStatus with automatic StartedAt stamp on running and CompletedAt
stamp on terminal statuses. -/
def UpdateStepStatus (m : InMemoryStateManager) (stepInstID : String)
    (status : StepStatus) (now : Nat) : Except String InMemoryStateManager :=
  match llookup m.steps stepInstID with
  | none => .error ("step not found: " ++ stepInstID)
  | some s =>
    let s := { s with Status := status }
    let s := if status = .running then { s with StartedAt := some now } else s
    let s :=
      if status = .completed ∨ status = .failed ∨ status = .skipped then
        { s with CompletedAt := some now }
      else s
    .ok { m with steps := lset m.steps stepInstID s }

/-- UpdateStepOutput: replace the stored output with a copy of the argument. -/
def UpdateStepOutput (m : InMemoryStateManager) (stepInstID : String) (output : VMap) :
    Except String InMemoryStateManager :=
  match llookup m.steps stepInstID with
  | none => .error ("step not found: " ++ stepInstID)
  | some s =>
    .ok { m with steps := lset m.steps stepInstID ({ s with Output := vmOverlay [] output }) }

/-- UpdateStepError: record the message, force status failed and stamp
CompletedAt. -/
def UpdateStepError (m : InMemoryStateManager) (stepInstID : String) (errMsg : String)
    (now : Nat) : Except String InMemoryStateManager :=
  match llookup m.steps stepInstID with
  | none => .error ("step not found: " ++ stepInstID)
  | some s =>
    let s2 := { s with Error := some errMsg, Status := .failed, CompletedAt := some now }
    .ok { m with steps := lset m.steps stepInstID s2 }

/-- SaveEvent: store (a copy of) the event; never fails. -/
def SaveEvent (m : InMemoryStateManager) (e : WorkflowEvent) : InMemoryStateManager :=
  { m with events := lset m.events e.ID e }

end InMemoryStateManager

/-- Keep the updated store on success, keep the old store when the update
errored: models a store call whose returned error the source discards. -/
def orKeep (m : InMemoryStateManager) : Except String InMemoryStateManager → InMemoryStateManager
  | .ok m' => m'
  | .error _ => m

/-- Ambient execution state threaded through the engine: the state manager,
the logical clock, the uuid counter, the per-step executor invocation counts
(the Go closures' internal state) and a log of executor invocations (step id
and the input it received). -/
structure Sys where
  store : InMemoryStateManager := {}
  clock : Nat := 0
  nextUuid : Nat := 0
  execCounts : List (String × Nat) := []
  execLog : List (String × VMap) := []
deriving Repr

/-- time.Now(): read and advance the logical clock. -/
def tick (s : Sys) : Nat × Sys := (s.clock, { s with clock := s.clock + 1 })

/-- uuid.New().String(): a fresh identifier. -/
def freshUuid (s : Sys) : String × Sys :=
  ("uuid-" ++ toString s.nextUuid, { s with nextUuid := s.nextUuid + 1 })

/-- Orchestrator.emitEvent: best-effort event persistence (the in-memory
SaveEvent cannot fail; a failure would be swallowed). -/
def emitEvent (s : Sys) (workflowInstID : String) (stepInstID : Option String)
    (eventType : String) (data : VMap) : Sys :=
  let (eid, s) := freshUuid s
  let (now, s) := tick s
  { s with store := s.store.SaveEvent
            ({ ID := eid, WorkflowInstID := workflowInstID, StepInstID := stepInstID,
               EventType := eventType, EventData := data, Timestamp := now }) }

/-- The Orchestrator's registry of workflow definitions. -/
structure Orchestrator where
  workflows : List (String × WorkflowDefinition) := []

/-- Orchestrator.RegisterWorkflow: rejects a nil pointer and an empty ID,
otherwise stores the definition, silently overwriting duplicates. -/
def Orchestrator.RegisterWorkflow (o : Orchestrator) (workflow : Option WorkflowDefinition) :
    Except String Orchestrator :=
  match workflow with
  | none => .error "workflow cannot be nil"
  | some w =>
    if w.ID = "" then .error "workflow ID cannot be empty"
    else .ok { o with workflows := lset o.workflows w.ID w }

/-- Orchestrator.GetWorkflow: registry lookup. -/
def Orchestrator.GetWorkflowDef (o : Orchestrator) (workflowID : String) :
    Except String WorkflowDefinition :=
  match llookup o.workflows workflowID with
  | some w => .ok w
  | none => .error ("workflow not found: " ++ workflowID)

/-- getTraceID: metadata lookup first (a string value), then the context
(modelled as carrying no values), else a fresh uuid. -/
def getTraceID (metadata : VMap) (s : Sys) : String × Sys :=
  match llookup metadata "trace_id" with
  | some (.str t) => (t, s)
  | _ => freshUuid s

/-- getCorrelationID: same lookup scheme as getTraceID. -/
def getCorrelationID (metadata : VMap) (s : Sys) : String × Sys :=
  match llookup metadata "correlation_id" with
  | some (.str t) => (t, s)
  | _ => freshUuid s

/-- getBusinessID: metadata lookup, else the empty string (no fresh uuid). -/
def getBusinessID (metadata : VMap) : String :=
  match llookup metadata "business_id" with
  | some (.str t) => t
  | _ => ""

/-- The default retry policy substituted when a step has none:
&RetryPolicy{MaxAttempts: 1, InitialInterval: 0} with zero values elsewhere. -/
def effRetryPolicy (sd : StepDefinition) : RetryPolicy :=
  sd.RetryPolicy.getD
    { MaxAttempts := 1, InitialInterval := 0, MaxInterval := 0, Multiplier := 0,
      RetryableErrors := [] }

/-- The wrapped error the step runner returns after exhausting attempts:
fmt.Errorf("step %s failed after %d attempts: %w", ...). -/
def stepFailMsg (stepID : String) (attempts : Int) (msg : String) : String :=
  "step " ++ stepID ++ " failed after " ++ toString attempts ++ " attempts: " ++ msg

/-- Find a workflow instance's step instance by step-definition ID
(stepInstMap[stepDef.ID] in the source, the map being built from the
instance's step pointers). -/
def findStep (inst : WorkflowInstance) (stepID : String) : Option StepInstance :=
  inst.Steps.find? (fun si => si.StepID == stepID)

/-- Write through the stepInstMap pointer: update the instance's step
instance(s) carrying the given step-definition ID. -/
def updStep (inst : WorkflowInstance) (stepID : String)
    (f : StepInstance → StepInstance) : WorkflowInstance :=
  { inst with Steps := inst.Steps.map (fun si => if si.StepID == stepID then f si else si) }

/-- Orchestrator.prepareStepInput: overlay, in order, the workflow input, each
dependency's outputs (both flattened and nested under the dependency's ID) and
the accumulated workflow context. -/
def prepareStepInput (sd : StepDefinition) (inst : WorkflowInstance) : VMap :=
  let input := vmOverlay [] inst.Input
  let input := sd.Dependencies.foldl
    (fun acc depID =>
      match findStep inst depID with
      | some depInst => lset (vmOverlay acc depInst.Output) depID (.map depInst.Output)
      | none => acc)
    input
  vmOverlay input inst.Context

/-- Orchestrator.mergeStepOutput: store the output under the step's ID in the
context, flatten it into the context, and flatten it into the workflow
output. -/
def mergeStepOutput (inst : WorkflowInstance) (stepID : String) (output : VMap) :
    WorkflowInstance :=
  let ctx := lset inst.Context stepID (.map output)
  let ctx := vmOverlay ctx output
  let out := vmOverlay inst.Output output
  { inst with Context := ctx, Output := out }

/-- Outcome of the attempt loop inside executeStep. -/
inductive AttemptOutcome where
  | success
  | exhausted (lastErr : Option String)

/-- Retry bookkeeping at the top of an attempt with index > 0: compute the
backoff interval (the sleep is a no-op in the model), set status retrying,
record the retry count and timestamp, persist the status (error discarded) and
emit step.retry. -/
def retryPrep (sd : StepDefinition) (pol : RetryPolicy) (attempt : Nat)
    (inst : WorkflowInstance) (s : Sys) : WorkflowInstance × Sys :=
  let _interval := calculateRetryInterval pol (attempt : Int)
  let (now, s) := tick s
  let inst := updStep inst sd.ID (fun si =>
    { si with Status := .retrying, RetryCount := (attempt : Int), LastRetryAt := some now })
  let siID := ((findStep inst sd.ID).map (fun si => si.ID)).getD ""
  let s := { s with store := orKeep s.store (s.store.UpdateStepStatus siID .retrying s.clock) }
  let s := emitEvent s inst.ID (some siID) "step.retry" [("attempt", .int ((attempt : Int) + 1))]
  (inst, s)

/-- First-attempt bookkeeping: set status running, stamp StartedAt, persist
the status (error discarded) and emit step.started. -/
def startPrep (sd : StepDefinition) (inst : WorkflowInstance) (s : Sys) :
    WorkflowInstance × Sys :=
  let (now, s) := tick s
  let inst := updStep inst sd.ID (fun si =>
    { si with Status := .running, StartedAt := some now })
  let siID := ((findStep inst sd.ID).map (fun si => si.ID)).getD ""
  let s := { s with store := orKeep s.store (s.store.UpdateStepStatus siID .running s.clock) }
  let s := emitEvent s inst.ID (some siID) "step.started" [("step_id", .str sd.ID)]
  (inst, s)

/-- Success bookkeeping after a successful executor call: store the output on
the step, stamp CompletedAt, persist status and output (errors discarded),
emit step.completed and merge the output into the workflow context/output. -/
def successWrap (sd : StepDefinition) (output : VMap) (durationMs : Int)
    (inst : WorkflowInstance) (s : Sys) : WorkflowInstance × Sys :=
  let (now, s) := tick s
  let inst := updStep inst sd.ID (fun si =>
    { si with Status := .completed, Output := output, CompletedAt := some now })
  let siID := ((findStep inst sd.ID).map (fun si => si.ID)).getD ""
  let s := { s with store := orKeep s.store (s.store.UpdateStepStatus siID .completed s.clock) }
  let s := { s with store := orKeep s.store (s.store.UpdateStepOutput siID output) }
  let s := emitEvent s inst.ID (some siID) "step.completed" [("duration_ms", .int durationMs)]
  let inst := mergeStepOutput inst sd.ID output
  (inst, s)

/-- The attempt loop of executeStep: attempt indices count up from 0, with
remaining attempts counting down from MaxAttempts; lastErr carries the latest
executor failure. -/
def attemptLoop (sd : StepDefinition) (pol : RetryPolicy) (input : VMap) :
    Nat → Nat → Option String → WorkflowInstance → Sys →
    AttemptOutcome × WorkflowInstance × Sys
  | _, 0, lastErr, inst, s => (.exhausted lastErr, inst, s)
  | attempt, remaining + 1, lastErr, inst, s =>
    let (inst, s) := if attempt = 0 then (inst, s) else retryPrep sd pol attempt inst s
    let (inst, s) := if attempt = 0 then startPrep sd inst s else (inst, s)
    let count := (llookup s.execCounts sd.ID).getD 0
    let s := { s with execCounts := lset s.execCounts sd.ID (count + 1),
                      execLog := s.execLog ++ [(sd.ID, input)] }
    let (t1, s) := tick s
    let result := sd.Executor count input
    let (t2, s) := tick s
    let durationMs : Int := (t2 : Int) - (t1 : Int)
    let inst := updStep inst sd.ID (fun si => { si with DurationMs := durationMs })
    match result with
    | .ok output =>
      let (inst, s) := successWrap sd output durationMs inst s
      (.success, inst, s)
    | .error e => attemptLoop sd pol input (attempt + 1) remaining (some e) inst s

/-- Orchestrator.executeStep: skip steps already terminal, otherwise run the
attempt loop and on exhaustion record the failure on the step and return the
wrapped error. A nil retry policy defaults to a single attempt. When
MaxAttempts is not positive the loop body never runs and the Go code
dereferences the nil lastErr - modelled as a distinguished panic message with
the step left failed and its error unset. -/
def executeStep (sd : StepDefinition) (inst : WorkflowInstance) (s : Sys) :
    Option String × WorkflowInstance × Sys :=
  match findStep inst sd.ID with
  | none => (some "missing step instance", inst, s)
  | some si0 =>
    if si0.IsCompleted then (none, inst, s)
    else
      let input := prepareStepInput sd inst
      let pol := effRetryPolicy sd
      match attemptLoop sd pol input 0 pol.MaxAttempts.toNat none inst s with
      | (.success, inst', s') => (none, inst', s')
      | (.exhausted (some lastErr), inst', s') =>
        let (now, s') := tick s'
        let inst'' := updStep inst' sd.ID (fun si =>
          { si with Status := .failed, Error := some lastErr, CompletedAt := some now })
        let siID := ((findStep inst'' sd.ID).map (fun si => si.ID)).getD ""
        let retries := ((findStep inst'' sd.ID).map (fun si => si.RetryCount)).getD 0
        let s' := { s' with store := orKeep s'.store (s'.store.UpdateStepStatus siID .failed s'.clock) }
        let s' := { s' with store := orKeep s'.store (s'.store.UpdateStepError siID lastErr s'.clock) }
        let s' := emitEvent s' inst''.ID (some siID) "step.failed"
          [("error", .str lastErr), ("retries", .int retries)]
        (some (stepFailMsg sd.ID pol.MaxAttempts lastErr), inst'', s')
      | (.exhausted none, inst', s') =>
        let inst'' := updStep inst' sd.ID (fun si => { si with Status := .failed })
        (some "panic: nil pointer dereference", inst'', s')

/-- Orchestrator.buildDependencyGraph: step ID to dependency list. -/
def buildDependencyGraph (workflow : WorkflowDefinition) : List (String × List String) :=
  workflow.Steps.foldl (fun g sd => lset g sd.ID sd.Dependencies) []

/-- Orchestrator.findReadySteps: the not-yet-executed steps all of whose
dependencies are executed, in definition order. -/
def findReadySteps (workflow : WorkflowDefinition) (executed : List String)
    (graph : List (String × List String)) : List StepDefinition :=
  workflow.Steps.filter (fun sd =>
    !executed.contains sd.ID &&
      ((llookup graph sd.ID).getD []).all (fun d => executed.contains d))

/-- Insert a step into a list already sorted by descending priority (one
admissible outcome of sort.Slice with a strict greater-than comparator). -/
def insertPrio (sd : StepDefinition) : List StepDefinition → List StepDefinition
  | [] => [sd]
  | t :: ts => if t.Priority < sd.Priority then sd :: t :: ts else t :: insertPrio sd ts

/-- Sort ready steps by descending priority. -/
def sortByPriorityDesc : List StepDefinition → List StepDefinition
  | [] => []
  | sd :: rest => insertPrio sd (sortByPriorityDesc rest)

/-- Mark a step ID executed (Go map-of-bool insertion). -/
def markExecuted (executed : List String) (id : String) : List String :=
  if executed.contains id then executed else executed ++ [id]

/-- The sequential half of a wave: execute the sync steps one by one in sorted
order; steps already completed are only marked executed; a required failure
returns immediately, a non-required failure marks the step skipped (persisted,
error discarded) and continues. -/
def runSyncSteps : List StepDefinition → List String → WorkflowInstance → Sys →
    Option String × List String × WorkflowInstance × Sys
  | [], executed, inst, s => (none, executed, inst, s)
  | sd :: rest, executed, inst, s =>
    if (findStep inst sd.ID).any (fun si => si.Status = .completed) then
      runSyncSteps rest (markExecuted executed sd.ID) inst s
    else
      match executeStep sd inst s with
      | (some e, inst', s') =>
        if sd.Required then (some e, executed, inst', s')
        else
          let inst'' := updStep inst' sd.ID (fun si => { si with Status := .skipped })
          let siID := ((findStep inst'' sd.ID).map (fun si => si.ID)).getD ""
          let s'' := { s' with store := orKeep s'.store (s'.store.UpdateStepStatus siID .skipped s'.clock) }
          runSyncSteps rest (markExecuted executed sd.ID) inst'' s''
      | (none, inst', s') => runSyncSteps rest (markExecuted executed sd.ID) inst' s'

/-- The concurrent half of a wave, determinised: each async step runs to
completion in sorted order (the goroutines all finish before the wave ends and
never cancel each other); required-step errors are collected and only
inspected after the whole wave, mirroring the WaitGroup + error channel. -/
def runAsyncSteps : List StepDefinition → List String → WorkflowInstance → Sys →
    List String × List String × WorkflowInstance × Sys
  | [], executed, inst, s => ([], executed, inst, s)
  | sd :: rest, executed, inst, s =>
    if (findStep inst sd.ID).any (fun si => si.Status = .completed) then
      runAsyncSteps rest (markExecuted executed sd.ID) inst s
    else
      match executeStep sd inst s with
      | (some e, inst', s') =>
        if sd.Required then
          let (errs, executed', inst'', s'') :=
            runAsyncSteps rest (markExecuted executed sd.ID) inst' s'
          (e :: errs, executed', inst'', s'')
        else
          let inst'' := updStep inst' sd.ID (fun si => { si with Status := .skipped })
          let siID := ((findStep inst'' sd.ID).map (fun si => si.ID)).getD ""
          let s'' := { s' with store := orKeep s'.store (s'.store.UpdateStepStatus siID .skipped s'.clock) }
          runAsyncSteps rest (markExecuted executed sd.ID) inst'' s''
      | (none, inst', s') => runAsyncSteps rest (markExecuted executed sd.ID) inst' s'

/-- The wave loop of Orchestrator.executeSteps. Each productive iteration
marks at least one step executed, so fuel equal to the number of steps plus
one makes the fuelled recursion equal to the source's unbounded loop. -/
def executeStepsLoop (workflow : WorkflowDefinition) (graph : List (String × List String)) :
    Nat → List String → WorkflowInstance → Sys →
    Option String × WorkflowInstance × Sys
  | 0, _, inst, s => (none, inst, s)
  | fuel + 1, executed, inst, s =>
    let ready := findReadySteps workflow executed graph
    if ready.isEmpty then (none, inst, s)
    else
      let sorted := sortByPriorityDesc ready
      let syncSteps := sorted.filter (fun sd => !sd.Async)
      let asyncSteps := sorted.filter (fun sd => sd.Async)
      match runSyncSteps syncSteps executed inst s with
      | (some e, _, inst', s') => (some e, inst', s')
      | (none, executed', inst', s') =>
        match runAsyncSteps asyncSteps executed' inst' s' with
        | (e :: _, _, inst'', s'') => (some e, inst'', s'')
        | ([], executed'', inst'', s'') =>
          if executed''.length = workflow.Steps.length then (none, inst'', s'')
          else executeStepsLoop workflow graph fuel executed'' inst'' s''

/-- Orchestrator.executeSteps. -/
def executeSteps (workflow : WorkflowDefinition) (inst : WorkflowInstance) (s : Sys) :
    Option String × WorkflowInstance × Sys :=
  executeStepsLoop workflow (buildDependencyGraph workflow)
    (workflow.Steps.length + 1) [] inst s

/-- The Go pattern of returning a result pointer and an error: both can be
present at once (a failed run returns its failure result and the error). -/
structure GoRet where
  res : Option WorkflowResult := none
  err : Option String := none
deriving Repr

/-- The loop body of step-instance initialisation: for each (index, step
definition) pair allocate a fresh ID, append a pending step instance to the
workflow instance and persist it. -/
def initStepsAux : List (Nat × StepDefinition) → WorkflowInstance → Sys →
    WorkflowInstance × Sys
  | [], inst, s => (inst, s)
  | (i, sd) :: rest, inst, s =>
    let (sid, s') := freshUuid s
    let si : StepInstance :=
      { ID := sid, StepID := sd.ID, WorkflowInstID := inst.ID, Status := .pending,
        Input := [], Output := [], ExecutionOrder := (i : Int) }
    initStepsAux rest { inst with Steps := inst.Steps ++ [si] }
      { s' with store := s'.store.SaveStep si }

/-- Create and persist the instance's step instances, one per definition step
in definition order, with fresh IDs and pending status. -/
def initSteps (workflow : WorkflowDefinition) (inst : WorkflowInstance) (s : Sys) :
    WorkflowInstance × Sys :=
  initStepsAux (List.zip (List.range workflow.Steps.length) workflow.Steps) inst s

/-- Orchestrator.executeWorkflow: mark the instance running, create step
instances if absent, run the wave loop, and on error persist the failure
(status and wrapped error) or on success persist the completed status; emits
the terminal workflow event either way. -/
def executeWorkflow (workflow : WorkflowDefinition) (inst0 : WorkflowInstance) (s : Sys) :
    GoRet × Sys :=
  let (startTime, s) := tick s
  let inst := { inst0 with Status := .running }
  match s.store.UpdateWorkflowStatus inst.ID .running s.clock with
  | .error e => ({ err := some ("failed to update workflow status: " ++ e) }, s)
  | .ok st =>
    let s := { s with store := st }
    let (inst, s) := if inst.Steps.isEmpty then initSteps workflow inst s else (inst, s)
    match executeSteps workflow inst s with
    | (some e, inst', s') =>
      let (now, s') := tick s'
      let inst'' := { inst' with Status := .failed, Error := some e, CompletedAt := some now }
      let s' := { s' with store := orKeep s'.store (s'.store.UpdateWorkflowStatus inst''.ID .failed s'.clock) }
      let s' := { s' with store := orKeep s'.store (s'.store.UpdateWorkflowError inst''.ID e s'.clock) }
      let s' := emitEvent s' inst''.ID none "workflow.failed" [("error", .str e)]
      let (endTime, s') := tick s'
      ({ res := some { Success := false, WorkflowInst := inst'', Error := some e,
                       Duration := (endTime : Int) - (startTime : Int) },
         err := some e }, s')
    | (none, inst', s') =>
      let (now, s') := tick s'
      let inst'' := { inst' with Status := .completed, CompletedAt := some now }
      match s'.store.UpdateWorkflowStatus inst''.ID .completed s'.clock with
      | .error e => ({ err := some ("failed to update workflow status: " ++ e) }, s')
      | .ok st' =>
        let s' := { s' with store := st' }
        let (endTime, s') := tick s'
        let s' := emitEvent s' inst''.ID none "workflow.completed"
          [("duration_ms", .int ((endTime : Int) - (startTime : Int)))]
        ({ res := some { Success := true, WorkflowInst := inst'', Output := inst''.Output,
                         Duration := (endTime : Int) - (startTime : Int) } }, s')

/-- Orchestrator.StartWorkflow: look up the definition, allocate a pending
instance with an empty step list, persist it, emit workflow.started and run
executeWorkflow synchronously. -/
def Orchestrator.StartWorkflow (o : Orchestrator) (workflowID : String)
    (input metadata : VMap) (s : Sys) : GoRet × Sys :=
  match o.GetWorkflowDef workflowID with
  | .error e => ({ err := some e }, s)
  | .ok workflow =>
    let (iid, s) := freshUuid s
    let (startedAt, s) := tick s
    let (traceID, s) := getTraceID metadata s
    let (corrID, s) := getCorrelationID metadata s
    let businessID := getBusinessID metadata
    let inst : WorkflowInstance :=
      { ID := iid, WorkflowID := workflowID, Status := .pending, Input := input,
        Output := [], Context := [], StartedAt := startedAt, Metadata := metadata,
        TraceID := traceID, CorrelationID := corrID, BusinessID := businessID,
        Steps := [] }
    let s := { s with store := s.store.SaveWorkflow inst }
    let s := emitEvent s inst.ID none "workflow.started" [("workflow_id", .str workflowID)]
    executeWorkflow workflow inst s

/-- Orchestrator.ResumeWorkflow: load the instance, look up its definition,
return the stored result as-is when the instance is terminal, otherwise
re-enter executeWorkflow. -/
def Orchestrator.ResumeWorkflow (o : Orchestrator) (workflowInstID : String) (s : Sys) :
    GoRet × Sys :=
  match s.store.GetWorkflow workflowInstID with
  | .error e => ({ err := some ("failed to load workflow: " ++ e) }, s)
  | .ok inst =>
    match o.GetWorkflowDef inst.WorkflowID with
    | .error e => ({ err := some e }, s)
    | .ok workflow =>
      if inst.IsCompleted then
        let (now, s) := tick s
        ({ res := some { Success := decide (inst.Status = .completed), WorkflowInst := inst,
                         Output := inst.Output,
                         Duration := (now : Int) - (inst.StartedAt : Int) } }, s)
      else executeWorkflow workflow inst s

/-- WorkflowBuilder.Build (builder source): require a non-empty workflow ID
and name and at least one step, and require every dependency to name a step
of the same workflow; no uniqueness or cycle check is performed. -/
def WorkflowBuilder.Build (w : WorkflowDefinition) : Except String WorkflowDefinition :=
  if w.ID = "" then .error "workflow ID is required"
  else if w.Name = "" then .error "workflow name is required"
  else if w.Steps.isEmpty then .error "workflow must have at least one step"
  else
    let stepIDs := w.Steps.map (fun sd => sd.ID)
    match w.Steps.findSome? (fun sd =>
        (sd.Dependencies.find? (fun d => !stepIDs.contains d)).map
          (fun d => "step " ++ sd.ID ++ " has invalid dependency: " ++ d)) with
    | some msg => .error msg
    | none => .ok w

/-! ## Basic association-list lemmas -/

theorem llookup_lset {α : Type} (l : List (String × α)) (k : String) (v : α) (k' : String) :
    llookup (lset l k v) k' = if k = k' then some v else llookup l k' := by
  induction l with
  | nil =>
    by_cases h : k = k' <;> simp [lset, llookup, h]
  | cons hd tl ih =>
    obtain ⟨k0, v0⟩ := hd
    by_cases h0 : k0 = k
    · subst h0
      by_cases h : k0 = k' <;> simp [lset, llookup, h]
    · by_cases h : k0 = k'
      · subst h
        have : ¬ k = k0 := fun hh => h0 hh.symm
        simp [lset, llookup, h0, this]
      · simp [lset, llookup, h0, h, ih]

theorem llookup_eq_none_of_not_mem {α : Type} (l : List (String × α)) (k : String)
    (h : k ∉ l.map Prod.fst) : llookup l k = none := by
  induction l with
  | nil => rfl
  | cons hd tl ih =>
    obtain ⟨k0, v0⟩ := hd
    simp only [List.map_cons, List.mem_cons] at h
    push_neg at h
    have hne : k0 ≠ k := fun hh => h.1 hh.symm
    simp [llookup, hne, ih h.2]

/-- First-defined choice between two optional values (Option.orElse with the
thunk spelled out, convenient in statements). -/
def oFirst {α : Type} (a b : Option α) : Option α :=
  match a with
  | some v => some v
  | none => b

theorem oFirst_some {α : Type} (v : α) (b : Option α) : oFirst (some v) b = some v := rfl

theorem oFirst_none {α : Type} (b : Option α) : oFirst none b = b := rfl

theorem oFirst_assoc {α : Type} (a b c : Option α) :
    oFirst (oFirst a b) c = oFirst a (oFirst b c) := by
  cases a <;> cases b <;> rfl

/-- Looking a key up after a Go-style copy loop of src over dst finds the
binding of src when present, else that of dst - provided src, as a Go map,
binds each key once. -/
theorem llookup_vmOverlay (dst src : VMap) (k : String)
    (hsrc : (src.map Prod.fst).Nodup) :
    llookup (vmOverlay dst src) k = oFirst (llookup src k) (llookup dst k) := by
  induction src generalizing dst with
  | nil => simp [vmOverlay, llookup, oFirst]
  | cons hd tl ih =>
    obtain ⟨k0, v0⟩ := hd
    simp only [List.map_cons, List.nodup_cons] at hsrc
    have step : vmOverlay dst ((k0, v0) :: tl) = vmOverlay (lset dst k0 v0) tl := rfl
    rw [step, ih (lset dst k0 v0) hsrc.2]
    by_cases hk : k0 = k
    · subst hk
      have htl : llookup tl k0 = none := llookup_eq_none_of_not_mem tl k0 hsrc.1
      simp [llookup, htl, llookup_lset, oFirst]
    · simp [llookup, hk, llookup_lset, oFirst]

/-! ## C10 - GetWorkflowSteps on the in-memory store -/

/-- Step instances used in the C10 counterexample: two steps of workflow w
saved with descending execution order, plus one step of another workflow. -/
def c10s1 : StepInstance :=
  { ID := "a", StepID := "s1", WorkflowInstID := "w", Status := .pending, ExecutionOrder := 1 }

def c10s2 : StepInstance :=
  { ID := "b", StepID := "s2", WorkflowInstID := "w", Status := .pending, ExecutionOrder := 0 }

def c10s3 : StepInstance :=
  { ID := "c", StepID := "s3", WorkflowInstID := "other", Status := .pending, ExecutionOrder := 0 }

def c10store : InMemoryStateManager :=
  ((InMemoryStateManager.SaveStep {} c10s1).SaveStep c10s2).SaveStep c10s3

/-- C10 counterexample: the in-memory GetWorkflowSteps returns the steps of
the workflow in map-iteration order without sorting them, so saving execution
orders 1 then 0 yields the list [1, 0], which is not ascending. -/
theorem c10_counterexample :
    (c10store.GetWorkflowSteps "w").map (fun si => si.ExecutionOrder) = [1, 0] ∧
      ¬ List.Pairwise (fun a b : Int => a ≤ b)
          ((c10store.GetWorkflowSteps "w").map (fun si => si.ExecutionOrder)) := by
  have h1 : (c10store.GetWorkflowSteps "w").map (fun si => si.ExecutionOrder) = [1, 0] := rfl
  refine ⟨h1, ?_⟩
  rw [h1]
  intro h
  rw [List.pairwise_cons] at h
  have := h.1 0 (by simp)
  omega

/-- C10 amended: GetWorkflowSteps returns exactly the stored step instances
whose WorkflowInstID matches the requested workflow (in unspecified map
order, not sorted by execution order). -/
theorem c10_amended (m : InMemoryStateManager) (workflowInstID : String) (si : StepInstance) :
    si ∈ m.GetWorkflowSteps workflowInstID ↔
      si ∈ m.steps.map Prod.snd ∧ si.WorkflowInstID = workflowInstID := by
  unfold InMemoryStateManager.GetWorkflowSteps
  rw [List.mem_filter]
  constructor
  · rintro ⟨hmem, hbeq⟩
    exact ⟨hmem, beq_iff_eq.mp hbeq⟩
  · rintro ⟨hmem, heq⟩
    exact ⟨hmem, beq_iff_eq.mpr heq⟩

/-! ## C5 - definition validation -/

/-- A two-step workflow whose dependency graph is the cycle a -> b -> a. -/
def cyclicWf : WorkflowDefinition :=
  { ID := "cyc", Name := "Cyclic",
    Steps :=
      [ { ID := "a", Name := "A", Executor := fun _ _ => .ok [], Dependencies := ["b"] },
        { ID := "b", Name := "B", Executor := fun _ _ => .ok [], Dependencies := ["a"] } ] }

/-- C5 counterexample: the builder accepts the cyclic definition (its
dependency check only requires referenced IDs to exist) and RegisterWorkflow
accepts it as well, so a cyclic dependency graph is not rejected. -/
theorem c5_counterexample :
    WorkflowBuilder.Build cyclicWf = .ok cyclicWf ∧
      (Orchestrator.RegisterWorkflow {} (some cyclicWf)) =
        .ok { workflows := lset [] "cyc" cyclicWf } := by
  constructor <;> rfl

/-- C5 amended: building validates exactly non-empty workflow ID, non-empty
name, at least one step, and reference integrity of dependencies - with no
cycle (or uniqueness) check - while RegisterWorkflow validates only that a
definition is supplied and its ID is non-empty. -/
theorem c5_amended :
    (∀ w : WorkflowDefinition,
      WorkflowBuilder.Build w = .ok w ↔
        (w.ID ≠ "" ∧ w.Name ≠ "" ∧ w.Steps ≠ [] ∧
          ∀ sd ∈ w.Steps, ∀ d ∈ sd.Dependencies, d ∈ w.Steps.map (fun s => s.ID))) ∧
    (∀ (o : Orchestrator) (w : WorkflowDefinition),
      (∃ o', o.RegisterWorkflow (some w) = .ok o') ↔ w.ID ≠ "") := by
  constructor
  · intro w
    unfold WorkflowBuilder.Build
    by_cases hid : w.ID = "" 
    · simp [hid]
    · by_cases hname : w.Name = ""
      · simp [hid, hname]
      · by_cases hsteps : w.Steps.isEmpty
        · simp [hid, hname, hsteps, List.isEmpty_iff.mp hsteps]
        · have hne : w.Steps ≠ [] := fun h => by simp [h] at hsteps
          simp only [hid, hname, hsteps, if_false, ne_eq, not_false_iff, true_and, hne]
          constructor
          · intro h
            cases hfind : w.Steps.findSome? (fun sd =>
                (sd.Dependencies.find? (fun d => !(w.Steps.map (fun s => s.ID)).contains d)).map
                  (fun d => "step " ++ sd.ID ++ " has invalid dependency: " ++ d)) with
            | some msg => rw [hfind] at h; exact absurd h (by simp)
            | none =>
              intro sd hsd d hd
              rw [List.findSome?_eq_none] at hfind
              have := hfind sd hsd
              rw [Option.map_eq_none'] at this
              rw [List.find?_eq_none] at this
              have hdd := this d hd
              simp only [Bool.not_eq_true', Bool.not_eq_false] at hdd
              exact List.contains_iff_exists_mem_beq.mp hdd |>.elim
                (fun a ha => (beq_iff_eq.mp ha.2) ▸ ha.1)
          · intro h
            have hfind : w.Steps.findSome? (fun sd =>
                (sd.Dependencies.find? (fun d => !(w.Steps.map (fun s => s.ID)).contains d)).map
                  (fun d => "step " ++ sd.ID ++ " has invalid dependency: " ++ d)) = none := by
              rw [List.findSome?_eq_none]
              intro sd hsd
              rw [Option.map_eq_none', List.find?_eq_none]
              intro d hd
              have : d ∈ w.Steps.map (fun s => s.ID) := h sd hsd d hd
              simp only [Bool.not_eq_true', Bool.not_eq_false]
              exact List.contains_iff_exists_mem_beq.mpr ⟨d, this, beq_iff_eq.mpr rfl⟩
            rw [hfind]
            simp
  · intro o w
    unfold Orchestrator.RegisterWorkflow
    by_cases hid : w.ID = "" <;> simp [hid]

/-! ## C7 - retry interval arithmetic -/

theorem goPow_eq_pow_toNat (b : ℚ) (e : Int) (he : 1 ≤ e) : goPow b e = b ^ e.toNat := by
  unfold goPow
  have hne : ¬ e = 0 := by omega
  have harith : (e - 1).toNat + 1 = e.toNat := by omega
  rw [if_neg hne, harith]

theorem goPow_zero (b : ℚ) : goPow b 0 = 1 := rfl

theorem ratTrunc_eq_floor_of_nonneg (q : ℚ) (h : 0 ≤ q) : ratTrunc q = ⌊q⌋ := by
  unfold ratTrunc
  rw [Int.tdiv_eq_ediv (Rat.num_nonneg.mpr h) (by positivity), Rat.floor_def]

theorem ratTrunc_mono_of_nonneg {a b : ℚ} (ha : 0 ≤ a) (hab : a ≤ b) :
    ratTrunc a ≤ ratTrunc b := by
  rw [ratTrunc_eq_floor_of_nonneg a ha, ratTrunc_eq_floor_of_nonneg b (le_trans ha hab)]
  exact Int.floor_le_floor hab

/-- The MaxInterval cap of calculateRetryInterval, as applied by its final
conditional. -/
def capInterval (d maxI : Int) : Int := if maxI > 0 ∧ d > maxI then maxI else d

theorem capInterval_mono {d1 d2 maxI : Int} (h : d1 ≤ d2) :
    capInterval d1 maxI ≤ capInterval d2 maxI := by
  unfold capInterval
  split_ifs <;> omega

theorem calculateRetryInterval_eq_cap (p : RetryPolicy) (i : Int) (h : p.InitialInterval ≠ 0) :
    calculateRetryInterval p i =
      capInterval (ratTrunc ((p.InitialInterval : ℚ) * goPow p.Multiplier (i - 1))) p.MaxInterval := by
  unfold calculateRetryInterval capInterval
  rw [if_neg h]

/-- C7 counterexample: the claimed formula min(initial * multiplier^(i-1),
maxInterval) fails when MaxInterval is zero (the code applies no cap, the
formula would give 0), and the claimed constant-or-shrinking behaviour for
multiplier <= 1 fails both for a negative multiplier (the delays alternate in
sign and grow from attempt 2 to attempt 3) and for a negative initial interval
with multiplier 1/2 (the delays grow toward zero). -/
theorem c7_counterexample :
    (calculateRetryInterval
        { MaxAttempts := 3, InitialInterval := 10, MaxInterval := 0, Multiplier := 2,
          RetryableErrors := [] } 2 = 20 ∧
      min (ratTrunc ((10 : ℚ) * goPow 2 1)) 0 = 0) ∧
    (calculateRetryInterval
        { MaxAttempts := 4, InitialInterval := 100, MaxInterval := 1000, Multiplier := -1,
          RetryableErrors := [] } 2 = -100 ∧
      calculateRetryInterval
        { MaxAttempts := 4, InitialInterval := 100, MaxInterval := 1000, Multiplier := -1,
          RetryableErrors := [] } 3 = 100) ∧
    (calculateRetryInterval
        { MaxAttempts := 3, InitialInterval := -100, MaxInterval := 1000, Multiplier := 1/2,
          RetryableErrors := [] } 1 = -100 ∧
      calculateRetryInterval
        { MaxAttempts := 3, InitialInterval := -100, MaxInterval := 1000, Multiplier := 1/2,
          RetryableErrors := [] } 2 = -50) := by
  refine ⟨⟨?_, ?_⟩, ⟨?_, ?_⟩, ⟨?_, ?_⟩⟩ <;>
    norm_num [calculateRetryInterval, goPow, ratTrunc, min_def]

/-- C7 amended: a zero initial interval always yields a zero delay; when the
initial interval is non-zero and MaxInterval is positive the delay for attempt
i is exactly min(trunc(initial * multiplier^(i-1)), MaxInterval); and for a
non-negative initial interval with multiplier between 0 and 1 the delay
sequence is non-increasing from attempt 1 on. -/
theorem c7_amended :
    (∀ (p : RetryPolicy) (i : Int), p.InitialInterval = 0 → calculateRetryInterval p i = 0) ∧
    (∀ (p : RetryPolicy) (i : Int), p.InitialInterval ≠ 0 → 0 < p.MaxInterval →
      calculateRetryInterval p i =
        min (ratTrunc ((p.InitialInterval : ℚ) * goPow p.Multiplier (i - 1))) p.MaxInterval) ∧
    (∀ (p : RetryPolicy) (i : Int), 1 ≤ i → 0 ≤ p.InitialInterval →
      0 ≤ p.Multiplier → p.Multiplier ≤ 1 →
      calculateRetryInterval p (i + 1) ≤ calculateRetryInterval p i) := by
  refine ⟨?_, ?_, ?_⟩
  · intro p i h
    unfold calculateRetryInterval
    rw [if_pos h]
  · intro p i h hmax
    unfold calculateRetryInterval
    rw [if_neg h]
    by_cases hcap : ratTrunc ((p.InitialInterval : ℚ) * goPow p.Multiplier (i - 1)) > p.MaxInterval
    · rw [if_pos ⟨hmax, hcap⟩]
      omega
    · rw [if_neg (by intro hh; exact hcap hh.2)]
      omega
  · intro p i hi h0 hm0 hm1
    by_cases hz : p.InitialInterval = 0
    · unfold calculateRetryInterval
      rw [if_pos hz, if_pos hz]
    · rw [calculateRetryInterval_eq_cap p (i + 1) hz, calculateRetryInterval_eq_cap p i hz]
      apply capInterval_mono
      have hpow : goPow p.Multiplier i ≤ goPow p.Multiplier (i - 1) := by
        by_cases h1 : i = 1
        · subst h1
          have h11 : (1 : Int) - 1 = 0 := by norm_num
          rw [goPow_eq_pow_toNat _ _ (le_refl 1), h11, goPow_zero]
          simpa using hm1
        · have h2 : 2 ≤ i := by omega
          rw [goPow_eq_pow_toNat _ _ (by omega), goPow_eq_pow_toNat _ _ (by omega)]
          exact pow_le_pow_of_le_one hm0 hm1 (by omega)
      have hinit : (0 : ℚ) ≤ (p.InitialInterval : ℚ) := by exact_mod_cast h0
      have hpow0 : (0 : ℚ) ≤ goPow p.Multiplier i := by
        rw [goPow_eq_pow_toNat _ _ (by omega)]
        positivity
      have harg : (p.InitialInterval : ℚ) * goPow p.Multiplier (i + 1 - 1) ≤
          (p.InitialInterval : ℚ) * goPow p.Multiplier (i - 1) := by
        have : i + 1 - 1 = i := by ring
        rw [this]
        exact mul_le_mul_of_nonneg_left hpow hinit
      apply ratTrunc_mono_of_nonneg _ harg
      have : i + 1 - 1 = i := by ring
      rw [this]
      exact mul_nonneg hinit hpow0

/-- C7 witness: the amended characterisation applied at concrete policies -
zero initial interval, a capped positive policy, and a shrinking sequence with
multiplier 1/2. -/
theorem c7_amended_witness :
    calculateRetryInterval
      { MaxAttempts := 3, InitialInterval := 0, MaxInterval := 5, Multiplier := 2,
        RetryableErrors := [] } 2 = 0 ∧
    calculateRetryInterval
      { MaxAttempts := 3, InitialInterval := 10, MaxInterval := 15, Multiplier := 2,
        RetryableErrors := [] } 2 =
      min (ratTrunc ((10 : ℚ) * goPow 2 1)) 15 ∧
    calculateRetryInterval
      { MaxAttempts := 3, InitialInterval := 10, MaxInterval := 15, Multiplier := 1/2,
        RetryableErrors := [] } 2 ≤
      calculateRetryInterval
        { MaxAttempts := 3, InitialInterval := 10, MaxInterval := 15, Multiplier := 1/2,
          RetryableErrors := [] } 1 := by
  refine ⟨?_, ?_, ?_⟩
  · exact c7_amended.1 _ 2 rfl
  · exact c7_amended.2.1 _ 2 (by norm_num) (by norm_num)
  · exact c7_amended.2.2 _ 1 le_rfl (by norm_num) (by norm_num) (by norm_num)

/-! ## Concrete scenarios shared by several claims -/

/-- An executor that always succeeds with output r = "ok". -/
def alwaysOkExec : StepExecutor := fun _ _ => .ok [("r", .str "ok")]

/-- A registered single-step workflow whose step always succeeds. -/
def wfSingle : WorkflowDefinition :=
  { ID := "w", Name := "W", Steps := [{ ID := "s1", Name := "S1", Executor := alwaysOkExec }] }

def orchSingle : Orchestrator := { workflows := lset [] "w" wfSingle }

/-- The run of scenario S1: start the single-step workflow. The fresh
instance receives ID "uuid-0". -/
def c1Run : GoRet × Sys := orchSingle.StartWorkflow "w" [("in", .int 1)] [] {}

/-- A fallback instance for Option projections. -/
def dummyInstance : WorkflowInstance := { ID := "", WorkflowID := "", Status := .pending }

/-! ## C1 - GetWorkflow and eagerly loaded steps -/

/-- C1 counterexample: after the engine has started (and completed) the
single-step workflow, the in-memory GetWorkflow returns an instance whose
Steps list is empty - the engine saved the instance before creating the step
instance and never re-saved it - even though the step instance itself is in
the store (GetWorkflowSteps finds it) and the definition has one step. -/
theorem c1_counterexample :
    (c1Run.2.store.GetWorkflow "uuid-0").map (fun w => w.Steps) = .ok [] ∧
    (c1Run.2.store.GetWorkflowSteps "uuid-0").map (fun si => si.StepID) = ["s1"] ∧
    wfSingle.Steps.length = 1 := by
  refine ⟨rfl, rfl, rfl⟩

/-- C1 amended: the in-memory GetWorkflow returns the instance exactly as
last saved via SaveWorkflow (its Steps list as of save time); since the
engine saves before creating step instances and never re-saves, GetWorkflow
after a start returns an empty Steps list while the step instances are
retrievable through GetWorkflowSteps. -/
theorem c1_amended :
    (∀ (m : InMemoryStateManager) (w : WorkflowInstance),
      (m.SaveWorkflow w).GetWorkflow w.ID = .ok w) ∧
    (c1Run.2.store.GetWorkflow "uuid-0").map (fun w => w.Steps) = .ok [] ∧
    (c1Run.2.store.GetWorkflowSteps "uuid-0").map (fun si => si.StepID) = ["s1"] := by
  refine ⟨?_, rfl, rfl⟩
  intro m w
  unfold InMemoryStateManager.SaveWorkflow InMemoryStateManager.GetWorkflow
  simp [llookup_lset]

/-! ## C2 - resumption of a failed workflow -/

/-- The S8 executor: deterministically fails on the first invocation of its
closure and succeeds on re-execution. -/
def flakyExec : StepExecutor := fun count _ =>
  if count = 0 then .error "first failure" else .ok [("r", .str "ok")]

def wfFlaky : WorkflowDefinition :=
  { ID := "w", Name := "W", Steps := [{ ID := "s1", Name := "S1", Executor := flakyExec }] }

def orchFlaky : Orchestrator := { workflows := lset [] "w" wfFlaky }

/-- First start: the step fails, the workflow ends failed. -/
def c2Run1 : GoRet × Sys := orchFlaky.StartWorkflow "w" [] [] {}

/-- Resume of the failed instance. -/
def c2Run2 : GoRet × Sys := orchFlaky.ResumeWorkflow "uuid-0" c2Run1.2

/-- C2 counterexample: after the failed start, ResumeWorkflow does not
re-execute the step (its executor is never invoked again) and does not
transition the workflow to completed: failed is a terminal status for
WorkflowInstance.IsCompleted, so the stored failed result is returned as-is. -/
theorem c2_counterexample :
    c2Run1.1.err = some "step s1 failed after 1 attempts: first failure" ∧
    c2Run2.1.res.map (fun r => (r.Success, r.WorkflowInst.Status)) =
      some (false, .failed) ∧
    (c2Run2.2.store.GetWorkflow "uuid-0").map (fun w => w.Status) = .ok .failed ∧
    llookup c2Run2.2.execCounts "s1" = some 1 := by
  refine ⟨rfl, rfl, rfl, rfl⟩

/-- C2 amended: ResumeWorkflow on an instance in a terminal state (notably
failed) returns the stored result as-is - success iff the status is
completed - mutating neither the store nor any executor state, so nothing is
re-executed; only non-terminal instances re-enter the execution loop. -/
theorem c2_amended (o : Orchestrator) (s : Sys) (id : String) (inst : WorkflowInstance)
    (wf : WorkflowDefinition)
    (hget : s.store.GetWorkflow id = .ok inst)
    (hdef : o.GetWorkflowDef inst.WorkflowID = .ok wf)
    (hterm : inst.IsCompleted = true) :
    (o.ResumeWorkflow id s).1.res =
      some { Success := decide (inst.Status = .completed), WorkflowInst := inst,
             Output := inst.Output,
             Duration := (s.clock : Int) - (inst.StartedAt : Int) } ∧
    (o.ResumeWorkflow id s).2.store = s.store ∧
    (o.ResumeWorkflow id s).2.execCounts = s.execCounts := by
  unfold Orchestrator.ResumeWorkflow
  rw [hget]
  dsimp only
  rw [hdef]
  simp [hterm, tick]

/-- The failed instance as stored after the first run. -/
def c2inst : WorkflowInstance :=
  (c2Run1.2.store.GetWorkflow "uuid-0").toOption.getD dummyInstance

/-- C2 witness: the amended statement applied to the concrete failed run. -/
theorem c2_amended_witness :
    (orchFlaky.ResumeWorkflow "uuid-0" c2Run1.2).1.res =
      some { Success := decide (c2inst.Status = .completed), WorkflowInst := c2inst,
             Output := c2inst.Output,
             Duration := (c2Run1.2.clock : Int) - (c2inst.StartedAt : Int) } ∧
    (orchFlaky.ResumeWorkflow "uuid-0" c2Run1.2).2.store = c2Run1.2.store ∧
    (orchFlaky.ResumeWorkflow "uuid-0" c2Run1.2).2.execCounts = c2Run1.2.execCounts :=
  c2_amended orchFlaky c2Run1.2 "uuid-0" c2inst wfFlaky rfl rfl rfl

/-! ## C3 - the retryable-errors gate is never consulted -/

/-- A retry policy whose RetryableErrors list does not match the failure the
executor produces. -/
def c3policy : RetryPolicy :=
  { MaxAttempts := 3, InitialInterval := 0, MaxInterval := 0, Multiplier := 2,
    RetryableErrors := ["timeout"] }

/-- An executor that always fails with the message "boom". -/
def boomExec : StepExecutor := fun _ _ => .error "boom"

def wfRetry : WorkflowDefinition :=
  { ID := "w", Name := "W",
    Steps := [{ ID := "s1", Name := "S1", Executor := boomExec,
                RetryPolicy := some c3policy }] }

def orchRetry : Orchestrator := { workflows := lset [] "w" wfRetry }

def c3Run : GoRet × Sys := orchRetry.StartWorkflow "w" [] [] {}

/-- C3 failing input, evaluated: the retry policy names only "timeout" as
retryable, the executor fails with "boom" (which is not "timeout" and contains
no entry of the list), yet the attempt loop invokes the executor all three
times - the RetryableErrors field is never consulted - before failing the
step and the workflow. -/
theorem c3_retryable_errors_ignored :
    c3policy.RetryableErrors = ["timeout"] ∧
    ("boom" = "timeout" → False) ∧
    llookup c3Run.2.execCounts "s1" = some 3 ∧
    c3Run.1.err = some (stepFailMsg "s1" 3 "boom") ∧
    c3Run.1.res.map (fun r => (findStep r.WorkflowInst "s1").map (fun si => si.Status)) =
      some (some .failed) := by
  refine ⟨rfl, ?_, rfl, rfl, rfl⟩
  intro h
  exact absurd h (by decide)

/-! ## C8 - priority ordering of a wave -/

theorem mem_insertPrio (sd x : StepDefinition) (l : List StepDefinition) :
    x ∈ insertPrio sd l ↔ x = sd ∨ x ∈ l := by
  induction l with
  | nil => simp [insertPrio]
  | cons t ts ih =>
    by_cases h : t.Priority < sd.Priority
    · rw [insertPrio, if_pos h, List.mem_cons, List.mem_cons]
      try tauto
    · rw [insertPrio, if_neg h, List.mem_cons, ih, List.mem_cons]
      tauto

theorem pairwise_insertPrio (sd : StepDefinition) (l : List StepDefinition)
    (h : List.Pairwise (fun a b => b.Priority ≤ a.Priority) l) :
    List.Pairwise (fun a b => b.Priority ≤ a.Priority) (insertPrio sd l) := by
  induction l with
  | nil => simp [insertPrio]
  | cons t ts ih =>
    rw [List.pairwise_cons] at h
    by_cases hlt : t.Priority < sd.Priority
    · rw [insertPrio, if_pos hlt, List.pairwise_cons]
      refine ⟨?_, List.Pairwise.cons h.1 h.2⟩
      intro x hx
      rcases List.mem_cons.mp hx with hxt | hxts
      · subst hxt; omega
      · have := h.1 x hxts
        omega
    · rw [insertPrio, if_neg hlt, List.pairwise_cons]
      refine ⟨?_, ih h.2⟩
      intro x hx
      rcases (mem_insertPrio sd x ts).mp hx with hxsd | hxts
      · subst hxsd; omega
      · exact h.1 x hxts

theorem sortByPriorityDesc_sorted (l : List StepDefinition) :
    List.Pairwise (fun a b => b.Priority ≤ a.Priority) (sortByPriorityDesc l) := by
  induction l with
  | nil => exact List.Pairwise.nil
  | cons sd rest ih => exact pairwise_insertPrio sd _ ih

/-- A dependency-free sequential step with the given priority. -/
def mkPrioStep (id : String) (p : Int) : StepDefinition :=
  { ID := id, Name := id, Executor := fun _ _ => .ok [], Priority := p }

/-- Scenario S3, with the definition list deliberately out of priority order:
B (priority 0), C (priority -5), A (priority 10). -/
def wfS3 : WorkflowDefinition :=
  { ID := "w3", Name := "W3",
    Steps := [mkPrioStep "B" 0, mkPrioStep "C" (-5), mkPrioStep "A" 10] }

def orchS3 : Orchestrator := { workflows := lset [] "w3" wfS3 }

def c8Run : GoRet × Sys := orchS3.StartWorkflow "w3" [] [] {}

/-- C8: every wave's ready steps are sorted by descending integer priority
(sortByPriorityDesc always yields a descending-priority list, and the
sequential steps of the wave are the non-async entries of that list executed
in order), and in scenario S3 the three steps with priorities 10, 0, -5 are
executed highest-priority first. -/
theorem c8_priority_order :
    (∀ l : List StepDefinition,
      List.Pairwise (fun a b => b.Priority ≤ a.Priority) (sortByPriorityDesc l)) ∧
    c8Run.2.execLog.map (fun e => e.1) = ["A", "B", "C"] ∧
    c8Run.1.res.map (fun r => r.Success) = some true := by
  refine ⟨sortByPriorityDesc_sorted, rfl, rfl⟩

/-! ## C6 - the step input overlay -/

/-- Modelled from the spec's description of the dependency contribution: each
dependency contributes its outputs under their own keys and the whole output
under a key equal to the dependency's identifier (the nested key written
after the flattened keys, so it wins for a key equal to the identifier), and
a later dependency wins over an earlier one. -/
def specDependencyLookup (inst : WorkflowInstance) : List String → String → Option Value
  | [], _ => none
  | d :: rest, k =>
    oFirst (specDependencyLookup inst rest k)
      (match findStep inst d with
       | some di => if k = d then some (.map di.Output) else llookup di.Output k
       | none => none)

theorem llookup_depFold (inst : WorkflowInstance) (deps : List String) (acc : VMap)
    (k : String)
    (hdeps : ∀ d ∈ deps, ∀ di, findStep inst d = some di → (di.Output.map Prod.fst).Nodup) :
    llookup
      (deps.foldl
        (fun acc depID =>
          match findStep inst depID with
          | some depInst => lset (vmOverlay acc depInst.Output) depID (.map depInst.Output)
          | none => acc)
        acc) k
    = oFirst (specDependencyLookup inst deps k) (llookup acc k) := by
  induction deps generalizing acc with
  | nil => simp [specDependencyLookup, oFirst]
  | cons d rest ih =>
    simp only [List.foldl_cons]
    rw [ih _ (fun d' hd' => hdeps d' (List.mem_cons_of_mem _ hd'))]
    have hstep :
        llookup
          (match findStep inst d with
           | some depInst => lset (vmOverlay acc depInst.Output) d (.map depInst.Output)
           | none => acc) k
        = oFirst
            (match findStep inst d with
             | some di => if k = d then some (.map di.Output) else llookup di.Output k
             | none => none)
            (llookup acc k) := by
      cases hfd : findStep inst d with
      | none => simp [oFirst]
      | some di =>
        have hnd : (di.Output.map Prod.fst).Nodup :=
          hdeps d (List.mem_cons_self d rest) di hfd
        by_cases hk : k = d
        · subst hk
          simp [llookup_lset, llookup_vmOverlay _ _ _ hnd, oFirst]
        · have hne : ¬ d = k := fun hh => hk hh.symm
          rw [llookup_lset, if_neg hne, llookup_vmOverlay _ _ _ hnd]
          simp [oFirst, hk]
    rw [hstep, specDependencyLookup, oFirst_assoc]

theorem oFirst_none_right {α : Type} (a : Option α) : oFirst a none = a := by
  cases a <;> rfl

/-- The two executors of scenario S2. -/
def s2exec1 : StepExecutor := fun _ _ => .ok [("x", .int 42)]

def s2exec2 : StepExecutor := fun _ _ => .ok [("y", .int 43)]

def wfS2step2 : StepDefinition :=
  { ID := "step2", Name := "S2", Executor := s2exec2, Dependencies := ["step1"] }

def wfS2 : WorkflowDefinition :=
  { ID := "w2", Name := "W2",
    Steps := [{ ID := "step1", Name := "S1", Executor := s2exec1 }, wfS2step2] }

def orchS2 : Orchestrator := { workflows := lset [] "w2" wfS2 }

def c6Run : GoRet × Sys := orchS2.StartWorkflow "w2" [] [] {}

/-- C6: a step's executor input is the overlay of (a) the workflow input,
(b) each dependency's outputs both flattened and nested under the
dependency's identifier, (c) the accumulated workflow context - last writer
wins, characterised key by key (context first, then dependencies, then
input); and in scenario S2, step2 receives x = 42 and step1 = the map
x = 42 from its dependency, and the final output carries x = 42 and y = 43. -/
theorem c6_input_overlay :
    (∀ (sd : StepDefinition) (inst : WorkflowInstance) (k : String),
      (inst.Input.map Prod.fst).Nodup →
      (inst.Context.map Prod.fst).Nodup →
      (∀ d ∈ sd.Dependencies, ∀ di, findStep inst d = some di →
        (di.Output.map Prod.fst).Nodup) →
      llookup (prepareStepInput sd inst) k =
        oFirst (llookup inst.Context k)
          (oFirst (specDependencyLookup inst sd.Dependencies k)
            (llookup inst.Input k))) ∧
    c6Run.2.execLog.map (fun e => (e.1, llookup e.2 "x", llookup e.2 "step1")) =
      [("step1", none, none),
       ("step2", some (.int 42), some (.map [("x", .int 42)]))] ∧
    c6Run.1.res.map (fun r => (llookup r.Output "x", llookup r.Output "y")) =
      some (some (.int 42), some (.int 43)) := by
  refine ⟨?_, rfl, rfl⟩
  intro sd inst k hinp hctx hdeps
  unfold prepareStepInput
  rw [llookup_vmOverlay _ _ _ hctx, llookup_depFold inst _ _ _ hdeps,
    llookup_vmOverlay _ _ _ hinp]
  simp [llookup, oFirst_none_right]

/-- A fallback step instance for Option projections. -/
def dummyStep : StepInstance :=
  { ID := "", StepID := "", WorkflowInstID := "", Status := .pending }

/-- The completed S2 instance and the dependency step instance inside it. -/
def c6inst : WorkflowInstance :=
  (c6Run.1.res.map (fun r => r.WorkflowInst)).getD dummyInstance

def c6depInst : StepInstance := (findStep c6inst "step1").getD dummyStep

/-- C6 witness: the overlay characterisation applied to the concrete S2
instance at key "x". -/
theorem c6_input_overlay_witness :
    llookup (prepareStepInput wfS2step2 c6inst) "x" =
      oFirst (llookup c6inst.Context "x")
        (oFirst (specDependencyLookup c6inst wfS2step2.Dependencies "x")
          (llookup c6inst.Input "x")) :=
  c6_input_overlay.1 wfS2step2 c6inst "x" (by decide) (by decide)
    (by
      intro d hd di hdi
      simp only [wfS2step2, List.mem_singleton] at hd
      subst hd
      rw [show findStep c6inst "step1" = some c6depInst from rfl] at hdi
      injection hdi with hdi'
      subst hdi'
      decide)

/-! ## C4 - infrastructure: how the engine's step updates act on findStep -/

theorem find?_map_upd_self (l : List StepInstance) (id : String)
    (f : StepInstance → StepInstance) (hf : ∀ si, (f si).StepID = si.StepID) :
    (l.map (fun si => if si.StepID == id then f si else si)).find?
        (fun si => si.StepID == id)
      = (l.find? (fun si => si.StepID == id)).map f := by
  induction l with
  | nil => rfl
  | cons hd tl ih =>
    cases h : hd.StepID == id with
    | true =>
      have hfh : ((f hd).StepID == id) = true := by rw [hf hd]; exact h
      rw [List.map_cons, if_pos h, List.find?_cons, List.find?_cons, h, hfh]
      rfl
    | false =>
      rw [List.map_cons, if_neg (by simp [h]), List.find?_cons, List.find?_cons, h]
      exact ih

theorem find?_map_upd_ne (l : List StepInstance) (id id' : String) (hne : id' ≠ id)
    (f : StepInstance → StepInstance) (hf : ∀ si, (f si).StepID = si.StepID) :
    (l.map (fun si => if si.StepID == id then f si else si)).find?
        (fun si => si.StepID == id')
      = l.find? (fun si => si.StepID == id') := by
  induction l with
  | nil => rfl
  | cons hd tl ih =>
    cases h : hd.StepID == id with
    | true =>
      have hid : hd.StepID = id := beq_iff_eq.mp h
      have hno : ((f hd).StepID == id') = false := by
        rw [hf hd, hid]
        exact beq_eq_false_iff_ne.mpr (fun hh => hne hh.symm)
      have hno' : (hd.StepID == id') = false := by
        rw [hid]
        exact beq_eq_false_iff_ne.mpr (fun hh => hne hh.symm)
      rw [List.map_cons, if_pos h, List.find?_cons, List.find?_cons, hno, hno']
      exact ih
    | false =>
      rw [List.map_cons, if_neg (by simp [h]), List.find?_cons, List.find?_cons]
      cases hh : hd.StepID == id' with
      | true => rfl
      | false => exact ih

theorem findStep_updStep_self (inst : WorkflowInstance) (id : String)
    (f : StepInstance → StepInstance) (hf : ∀ si, (f si).StepID = si.StepID) :
    findStep (updStep inst id f) id = (findStep inst id).map f :=
  find?_map_upd_self inst.Steps id f hf

theorem findStep_updStep_ne (inst : WorkflowInstance) (id id' : String) (hne : id' ≠ id)
    (f : StepInstance → StepInstance) (hf : ∀ si, (f si).StepID = si.StepID) :
    findStep (updStep inst id f) id' = findStep inst id' :=
  find?_map_upd_ne inst.Steps id id' hne f hf

theorem ids_updStep (inst : WorkflowInstance) (id : String)
    (f : StepInstance → StepInstance) (hf : ∀ si, (f si).StepID = si.StepID) :
    (updStep inst id f).Steps.map (fun si => si.StepID)
      = inst.Steps.map (fun si => si.StepID) := by
  unfold updStep
  simp only [List.map_map]
  apply List.map_congr_left
  intro si _
  by_cases h : (si.StepID == id) = true <;> simp [Function.comp, h, hf]

theorem ids_mergeStepOutput (inst : WorkflowInstance) (id : String) (out : VMap) :
    (mergeStepOutput inst id out).Steps = inst.Steps := rfl

theorem findStep_isSome_iff (inst : WorkflowInstance) (id : String) :
    (findStep inst id).isSome ↔ id ∈ inst.Steps.map (fun si => si.StepID) := by
  unfold findStep
  rw [List.find?_isSome]
  constructor
  · rintro ⟨si, hsi, hbeq⟩
    exact List.mem_map.mpr ⟨si, hsi, (beq_iff_eq.mp hbeq)⟩
  · intro h
    obtain ⟨si, hsi, hid⟩ := List.mem_map.mp h
    exact ⟨si, hsi, beq_iff_eq.mpr hid⟩

/-- Step-instance lists with identical step IDs in identical positions. -/
def StepIDsEq (a b : WorkflowInstance) : Prop :=
  a.Steps.map (fun si => si.StepID) = b.Steps.map (fun si => si.StepID)

theorem StepIDsEq.refl (a : WorkflowInstance) : StepIDsEq a a := rfl

theorem StepIDsEq.trans {a b c : WorkflowInstance} (h1 : StepIDsEq a b)
    (h2 : StepIDsEq b c) : StepIDsEq a c := Eq.trans h1 h2

theorem StepIDsEq.updStep (inst : WorkflowInstance) (id : String)
    (f : StepInstance → StepInstance) (hf : ∀ si, (f si).StepID = si.StepID) :
    StepIDsEq (updStep inst id f) inst := ids_updStep inst id f hf

theorem presence_of_stepIDsEq {a b : WorkflowInstance} (h : StepIDsEq a b) (id : String) :
    (findStep b id).isSome → (findStep a id).isSome := by
  intro hb
  rw [findStep_isSome_iff] at hb ⊢
  rw [h]
  exact hb

theorem ids_retryPrep (sd : StepDefinition) (pol : RetryPolicy) (a : Nat)
    (inst : WorkflowInstance) (s : Sys) : StepIDsEq (retryPrep sd pol a inst s).1 inst := by
  unfold retryPrep
  exact StepIDsEq.updStep _ _ _ (fun si => rfl)

theorem ids_startPrep (sd : StepDefinition) (inst : WorkflowInstance) (s : Sys) :
    StepIDsEq (startPrep sd inst s).1 inst := by
  unfold startPrep
  exact StepIDsEq.updStep _ _ _ (fun si => rfl)

theorem ids_successWrap (sd : StepDefinition) (out : VMap) (d : Int)
    (inst : WorkflowInstance) (s : Sys) : StepIDsEq (successWrap sd out d inst s).1 inst := by
  unfold successWrap
  exact StepIDsEq.updStep _ _ _ (fun si => rfl)

theorem ids_attemptLoop (sd : StepDefinition) (pol : RetryPolicy) (input : VMap)
    (a r : Nat) (le : Option String) (inst : WorkflowInstance) (s : Sys) :
    StepIDsEq (attemptLoop sd pol input a r le inst s).2.1 inst := by
  induction r generalizing a le inst s with
  | zero => exact StepIDsEq.refl inst
  | succ r ih =>
    show StepIDsEq (attemptLoop sd pol input a (r + 1) le inst s).2.1 inst
    rw [attemptLoop]
    cases hpre : (if a = 0 then (inst, s) else retryPrep sd pol a inst s) with
    | mk inst1 s1 =>
      have hid1 : StepIDsEq inst1 inst := by
        by_cases ha : a = 0
        · rw [if_pos ha] at hpre
          cases hpre
          exact StepIDsEq.refl inst
        · rw [if_neg ha] at hpre
          have := ids_retryPrep sd pol a inst s
          rw [hpre] at this
          exact this
      cases hpre2 : (if a = 0 then startPrep sd inst1 s1 else (inst1, s1)) with
      | mk inst2 s2 =>
        have hid2 : StepIDsEq inst2 inst1 := by
          by_cases ha : a = 0
          · rw [if_pos ha] at hpre2
            have := ids_startPrep sd inst1 s1
            rw [hpre2] at this
            exact this
          · rw [if_neg ha] at hpre2
            cases hpre2
            exact StepIDsEq.refl inst1
        simp only [hpre, hpre2]
        cases hres : sd.Executor ((llookup s2.execCounts sd.ID).getD 0) input with
        | ok output =>
          simp only [hres]
          refine StepIDsEq.trans (StepIDsEq.trans (ids_successWrap sd output _ _ _) ?_)
            (StepIDsEq.trans hid2 hid1)
          exact StepIDsEq.updStep _ _ _ (fun si => rfl)
        | error e =>
          simp only [hres]
          refine StepIDsEq.trans (StepIDsEq.trans (ih _ _ _ _) ?_)
            (StepIDsEq.trans hid2 hid1)
          exact StepIDsEq.updStep _ _ _ (fun si => rfl)

theorem ids_executeStep (sd : StepDefinition) (inst : WorkflowInstance) (s : Sys) :
    StepIDsEq (executeStep sd inst s).2.1 inst := by
  unfold executeStep
  cases hfs : findStep inst sd.ID with
  | none => exact StepIDsEq.refl inst
  | some si0 =>
    by_cases hic : si0.IsCompleted = true
    · simp only [hic, if_pos rfl]
      exact StepIDsEq.refl inst
    · simp only [hic]
      rw [if_neg (by simp)]
      cases hal : attemptLoop sd (effRetryPolicy sd) (prepareStepInput sd inst) 0
          (effRetryPolicy sd).MaxAttempts.toNat none inst s with
      | mk outcome rest =>
        have hal' := ids_attemptLoop sd (effRetryPolicy sd) (prepareStepInput sd inst) 0
          (effRetryPolicy sd).MaxAttempts.toNat none inst s
        rw [hal] at hal'
        cases outcome with
        | success => exact hal'
        | exhausted lastErr =>
          cases lastErr with
          | some e =>
            exact StepIDsEq.trans (StepIDsEq.updStep _ _ _ (fun si => rfl)) hal'
          | none =>
            exact StepIDsEq.trans (StepIDsEq.updStep _ _ _ (fun si => rfl)) hal'

theorem findStep_retryPrep_ne (sd : StepDefinition) (pol : RetryPolicy) (a : Nat)
    (inst : WorkflowInstance) (s : Sys) (id' : String) (hne : id' ≠ sd.ID) :
    findStep (retryPrep sd pol a inst s).1 id' = findStep inst id' := by
  unfold retryPrep
  exact findStep_updStep_ne _ _ _ hne _ (fun si => rfl)

theorem findStep_startPrep_ne (sd : StepDefinition) (inst : WorkflowInstance) (s : Sys)
    (id' : String) (hne : id' ≠ sd.ID) :
    findStep (startPrep sd inst s).1 id' = findStep inst id' := by
  unfold startPrep
  exact findStep_updStep_ne _ _ _ hne _ (fun si => rfl)

theorem findStep_successWrap_ne (sd : StepDefinition) (out : VMap) (d : Int)
    (inst : WorkflowInstance) (s : Sys) (id' : String) (hne : id' ≠ sd.ID) :
    findStep (successWrap sd out d inst s).1 id' = findStep inst id' := by
  unfold successWrap mergeStepOutput
  exact findStep_updStep_ne _ _ _ hne _ (fun si => rfl)

theorem findStep_attemptLoop_ne (sd : StepDefinition) (pol : RetryPolicy) (input : VMap)
    (a r : Nat) (le : Option String) (inst : WorkflowInstance) (s : Sys)
    (id' : String) (hne : id' ≠ sd.ID) :
    findStep (attemptLoop sd pol input a r le inst s).2.1 id' = findStep inst id' := by
  induction r generalizing a le inst s with
  | zero => rfl
  | succ r ih =>
    show findStep (attemptLoop sd pol input a (r + 1) le inst s).2.1 id' = findStep inst id'
    rw [attemptLoop]
    cases hpre : (if a = 0 then (inst, s) else retryPrep sd pol a inst s) with
    | mk inst1 s1 =>
      have h1 : findStep inst1 id' = findStep inst id' := by
        by_cases ha : a = 0
        · rw [if_pos ha] at hpre
          cases hpre
          rfl
        · rw [if_neg ha] at hpre
          have := findStep_retryPrep_ne sd pol a inst s id' hne
          rw [hpre] at this
          exact this
      cases hpre2 : (if a = 0 then startPrep sd inst1 s1 else (inst1, s1)) with
      | mk inst2 s2 =>
        have h2 : findStep inst2 id' = findStep inst1 id' := by
          by_cases ha : a = 0
          · rw [if_pos ha] at hpre2
            have := findStep_startPrep_ne sd inst1 s1 id' hne
            rw [hpre2] at this
            exact this
          · rw [if_neg ha] at hpre2
            cases hpre2
            rfl
        simp only [hpre, hpre2]
        cases hres : sd.Executor ((llookup s2.execCounts sd.ID).getD 0) input with
        | ok output =>
          simp only [hres]
          refine Eq.trans (findStep_successWrap_ne _ _ _ _ _ _ hne) ?_
          refine Eq.trans ?_ (Eq.trans h2 h1)
          apply findStep_updStep_ne _ _ _ hne
          intro si
          rfl
        | error e =>
          simp only [hres]
          refine Eq.trans (ih _ _ _ _) ?_
          refine Eq.trans ?_ (Eq.trans h2 h1)
          apply findStep_updStep_ne _ _ _ hne
          intro si
          rfl

theorem findStep_executeStep_ne (sd : StepDefinition) (inst : WorkflowInstance) (s : Sys)
    (id' : String) (hne : id' ≠ sd.ID) :
    findStep (executeStep sd inst s).2.1 id' = findStep inst id' := by
  unfold executeStep
  cases hfs : findStep inst sd.ID with
  | none => rfl
  | some si0 =>
    by_cases hic : si0.IsCompleted = true
    · simp only [hic, if_pos rfl]
      rfl
    · simp only [hic]
      rw [if_neg (by simp)]
      cases hal : attemptLoop sd (effRetryPolicy sd) (prepareStepInput sd inst) 0
          (effRetryPolicy sd).MaxAttempts.toNat none inst s with
      | mk outcome rest =>
        have hpr := findStep_attemptLoop_ne sd (effRetryPolicy sd) (prepareStepInput sd inst) 0
          (effRetryPolicy sd).MaxAttempts.toNat none inst s id' hne
        rw [hal] at hpr
        cases outcome with
        | success => exact hpr
        | exhausted lastErr =>
          cases lastErr with
          | some e =>
            refine Eq.trans ?_ hpr
            apply findStep_updStep_ne _ _ _ hne
            intro si
            rfl
          | none =>
            refine Eq.trans ?_ hpr
            apply findStep_updStep_ne _ _ _ hne
            intro si
            rfl

theorem attemptLoop_exhausted_some (sd : StepDefinition) (pol : RetryPolicy) (input : VMap)
    (a r : Nat) (le : Option String) (inst : WorkflowInstance) (s : Sys)
    (hle : 1 ≤ r ∨ le.isSome) :
    ∀ le' inst' s', attemptLoop sd pol input a r le inst s = (.exhausted le', inst', s') →
      le'.isSome := by
  induction r generalizing a le inst s with
  | zero =>
    intro le' inst' s' hrun
    rw [attemptLoop] at hrun
    cases hrun
    rcases hle with h1 | h2
    · omega
    · exact h2
  | succ r ih =>
    intro le' inst' s' hrun
    rw [attemptLoop] at hrun
    cases hpre : (if a = 0 then (inst, s) else retryPrep sd pol a inst s) with
    | mk inst1 s1 =>
      rw [hpre] at hrun
      dsimp only at hrun
      cases hpre2 : (if a = 0 then startPrep sd inst1 s1 else (inst1, s1)) with
      | mk inst2 s2 =>
        rw [hpre2] at hrun
        dsimp only at hrun
        cases hres : sd.Executor ((llookup s2.execCounts sd.ID).getD 0) input with
        | ok output =>
          rw [hres] at hrun
          dsimp only at hrun
          cases hpost : successWrap sd output
              ((tick (tick { s2 with
                  execCounts := lset s2.execCounts sd.ID ((llookup s2.execCounts sd.ID).getD 0 + 1),
                  execLog := s2.execLog ++ [(sd.ID, input)] }).2).1 -
                (tick { s2 with
                  execCounts := lset s2.execCounts sd.ID ((llookup s2.execCounts sd.ID).getD 0 + 1),
                  execLog := s2.execLog ++ [(sd.ID, input)] }).1)
              (updStep inst2 sd.ID (fun si => { si with
                DurationMs :=
                  ((tick (tick { s2 with
                      execCounts := lset s2.execCounts sd.ID ((llookup s2.execCounts sd.ID).getD 0 + 1),
                      execLog := s2.execLog ++ [(sd.ID, input)] }).2).1 : Int) -
                    ((tick { s2 with
                      execCounts := lset s2.execCounts sd.ID ((llookup s2.execCounts sd.ID).getD 0 + 1),
                      execLog := s2.execLog ++ [(sd.ID, input)] }).1 : Int) }))
              (tick (tick { s2 with
                  execCounts := lset s2.execCounts sd.ID ((llookup s2.execCounts sd.ID).getD 0 + 1),
                  execLog := s2.execLog ++ [(sd.ID, input)] }).2).2 with
          | mk instS sS =>
            rw [hpost] at hrun
            cases hrun
        | error e =>
          rw [hres] at hrun
          dsimp only at hrun
          exact ih (a + 1) (some e) _ _ (Or.inr rfl) le' inst' s' hrun

theorem findStep_failWrap (inst1 : WorkflowInstance) (sdID : String) (lastErr : String)
    (now : Nat) (si1 : StepInstance) (h : findStep inst1 sdID = some si1) :
    findStep (updStep inst1 sdID (fun si =>
        { si with Status := .failed, Error := some lastErr, CompletedAt := some now })) sdID
      = some { si1 with Status := .failed, Error := some lastErr, CompletedAt := some now } := by
  rw [findStep_updStep_self inst1 sdID
      (fun si => { si with Status := .failed, Error := some lastErr, CompletedAt := some now })
      (fun si => rfl), h]
  rfl

theorem executeStep_error (sd : StepDefinition) (inst : WorkflowInstance) (s : Sys)
    (e : String) (inst' : WorkflowInstance) (s' : Sys)
    (hpol : 1 ≤ (effRetryPolicy sd).MaxAttempts)
    (hpresent : (findStep inst sd.ID).isSome)
    (hrun : executeStep sd inst s = (some e, inst', s')) :
    ∃ msg si, e = stepFailMsg sd.ID (effRetryPolicy sd).MaxAttempts msg ∧
      findStep inst' sd.ID = some si ∧ si.Status = .failed ∧ si.Error = some msg := by
  unfold executeStep at hrun
  cases hfs : findStep inst sd.ID with
  | none =>
    rw [hfs] at hpresent
    simp at hpresent
  | some si0 =>
    rw [hfs] at hrun
    try dsimp only at hrun
    by_cases hic : si0.IsCompleted = true
    · rw [if_pos hic] at hrun
      simp at hrun
    · rw [if_neg hic] at hrun
      cases hal : attemptLoop sd (effRetryPolicy sd) (prepareStepInput sd inst) 0
          (effRetryPolicy sd).MaxAttempts.toNat none inst s with
      | mk outcome rest =>
        cases rest with
        | mk inst1 s1 =>
          rw [hal] at hrun
          try dsimp only at hrun
          cases outcome with
          | success => simp at hrun
          | exhausted lastErr =>
            cases lastErr with
            | none =>
              have hsome := attemptLoop_exhausted_some sd (effRetryPolicy sd)
                (prepareStepInput sd inst) 0 (effRetryPolicy sd).MaxAttempts.toNat none inst s
                (Or.inl (by omega)) none inst1 s1 hal
              simp at hsome
            | some lastErr =>
              have hids := ids_attemptLoop sd (effRetryPolicy sd) (prepareStepInput sd inst) 0
                (effRetryPolicy sd).MaxAttempts.toNat none inst s
              rw [hal] at hids
              have hpres1 : (findStep inst1 sd.ID).isSome :=
                presence_of_stepIDsEq hids sd.ID hpresent
              obtain ⟨si1, hsi1⟩ := Option.isSome_iff_exists.mp hpres1
              simp only [Prod.mk.injEq, Option.some.injEq] at hrun
              obtain ⟨he, hinst, _⟩ := hrun
              refine ⟨lastErr, { si1 with Status := .failed, Error := some lastErr, CompletedAt := some (tick s1).1 }, he.symm, ?_, rfl, rfl⟩
              rw [← hinst]
              exact findStep_failWrap inst1 sd.ID lastErr (tick s1).1 si1 hsi1

theorem insertPrio_perm (sd : StepDefinition) (l : List StepDefinition) :
    (insertPrio sd l).Perm (sd :: l) := by
  induction l with
  | nil => exact List.Perm.refl _
  | cons t ts ih =>
    by_cases h : t.Priority < sd.Priority
    · rw [insertPrio, if_pos h]
    · rw [insertPrio, if_neg h]
      exact ((ih.cons t).trans (List.Perm.swap sd t ts))

theorem sortByPriorityDesc_perm (l : List StepDefinition) :
    (sortByPriorityDesc l).Perm l := by
  induction l with
  | nil => exact List.Perm.refl _
  | cons sd rest ih =>
    exact (insertPrio_perm sd (sortByPriorityDesc rest)).trans (ih.cons sd)

theorem mem_sortByPriorityDesc {x : StepDefinition} {l : List StepDefinition}
    (h : x ∈ sortByPriorityDesc l) : x ∈ l :=
  (sortByPriorityDesc_perm l).subset h

/-- The evidence C4 extracts from a failed run: a required definition step
whose instance is failed, carrying the error message the workflow's wrapped
error was built from. -/
def failedWitness (wf : WorkflowDefinition) (inst : WorkflowInstance) (e : String) : Prop :=
  ∃ sd, sd ∈ wf.Steps ∧ sd.Required = true ∧
    ∃ si msg, findStep inst sd.ID = some si ∧ si.Status = .failed ∧ si.Error = some msg ∧
      e = stepFailMsg sd.ID (effRetryPolicy sd).MaxAttempts msg

theorem ids_runSyncSteps (l : List StepDefinition) (executed : List String)
    (inst : WorkflowInstance) (s : Sys) :
    StepIDsEq (runSyncSteps l executed inst s).2.2.1 inst := by
  induction l generalizing executed inst s with
  | nil => exact StepIDsEq.refl inst
  | cons sd rest ih =>
    rw [runSyncSteps]
    cases hcomp : (findStep inst sd.ID).any (fun si => si.Status = .completed) with
    | true =>
      exact ih _ _ _
    | false =>
      try dsimp only
      cases hex : executeStep sd inst s with
      | mk errOpt rest2 =>
        cases rest2 with
        | mk i1 s1 =>
          have hids1 : StepIDsEq i1 inst := by
            have := ids_executeStep sd inst s
            rw [hex] at this
            exact this
          cases errOpt with
          | some e0 =>
            try dsimp only
            by_cases hreq : sd.Required = true
            · rw [if_pos hreq]
              exact hids1
            · rw [if_neg hreq]
              refine StepIDsEq.trans (ih _ _ _) ?_
              refine StepIDsEq.trans ?_ hids1
              exact StepIDsEq.updStep _ _ _ (fun si => rfl)
          | none => exact StepIDsEq.trans (ih _ _ _) hids1

theorem ids_runAsyncSteps (l : List StepDefinition) (executed : List String)
    (inst : WorkflowInstance) (s : Sys) :
    StepIDsEq (runAsyncSteps l executed inst s).2.2.1 inst := by
  induction l generalizing executed inst s with
  | nil => exact StepIDsEq.refl inst
  | cons sd rest ih =>
    rw [runAsyncSteps]
    cases hcomp : (findStep inst sd.ID).any (fun si => si.Status = .completed) with
    | true =>
      exact ih _ _ _
    | false =>
      try dsimp only
      cases hex : executeStep sd inst s with
      | mk errOpt rest2 =>
        cases rest2 with
        | mk i1 s1 =>
          have hids1 : StepIDsEq i1 inst := by
            have := ids_executeStep sd inst s
            rw [hex] at this
            exact this
          cases errOpt with
          | some e0 =>
            try dsimp only
            by_cases hreq : sd.Required = true
            · rw [if_pos hreq]
              cases hrec : runAsyncSteps rest (markExecuted executed sd.ID) i1 s1 with
              | mk errs2 rest3 =>
                have := ih (markExecuted executed sd.ID) i1 s1
                rw [hrec] at this
                exact StepIDsEq.trans this hids1
            · rw [if_neg hreq]
              refine StepIDsEq.trans (ih _ _ _) ?_
              refine StepIDsEq.trans ?_ hids1
              exact StepIDsEq.updStep _ _ _ (fun si => rfl)
          | none => exact StepIDsEq.trans (ih _ _ _) hids1

theorem findStep_runAsync_notin (l : List StepDefinition) (executed : List String)
    (inst : WorkflowInstance) (s : Sys) (id' : String)
    (hnotin : ∀ sd ∈ l, id' ≠ sd.ID) :
    findStep (runAsyncSteps l executed inst s).2.2.1 id' = findStep inst id' := by
  induction l generalizing executed inst s with
  | nil => rfl
  | cons sd rest ih =>
    have hne : id' ≠ sd.ID := hnotin sd (List.mem_cons_self sd rest)
    have hnotin' : ∀ sd' ∈ rest, id' ≠ sd'.ID :=
      fun sd' h => hnotin sd' (List.mem_cons_of_mem sd h)
    rw [runAsyncSteps]
    cases hcomp : (findStep inst sd.ID).any (fun si => si.Status = .completed) with
    | true => exact ih _ _ _ hnotin'
    | false =>
      try dsimp only
      cases hex : executeStep sd inst s with
      | mk errOpt rest2 =>
        cases rest2 with
        | mk i1 s1 =>
          have hpr1 : findStep i1 id' = findStep inst id' := by
            have := findStep_executeStep_ne sd inst s id' hne
            rw [hex] at this
            exact this
          cases errOpt with
          | some e0 =>
            try dsimp only
            by_cases hreq : sd.Required = true
            · rw [if_pos hreq]
              cases hrec : runAsyncSteps rest (markExecuted executed sd.ID) i1 s1 with
              | mk errs2 rest3 =>
                have := ih (markExecuted executed sd.ID) i1 s1 hnotin'
                rw [hrec] at this
                exact this.trans hpr1
            · rw [if_neg hreq]
              refine Eq.trans (ih _ _ _ hnotin') ?_
              refine Eq.trans ?_ hpr1
              apply findStep_updStep_ne _ _ _ hne
              intro si
              rfl
          | none => exact (ih _ _ _ hnotin').trans hpr1

theorem presence_all_of_stepIDsEq {a b : WorkflowInstance} (h : StepIDsEq a b)
    (l : List StepDefinition) (hp : ∀ sd ∈ l, (findStep b sd.ID).isSome) :
    ∀ sd ∈ l, (findStep a sd.ID).isSome :=
  fun sd hsd => presence_of_stepIDsEq h sd.ID (hp sd hsd)

theorem runSyncSteps_err (wf : WorkflowDefinition) (l : List StepDefinition)
    (executed : List String) (inst : WorkflowInstance) (s : Sys)
    (e : String) (executed' : List String) (inst' : WorkflowInstance) (s' : Sys)
    (hsub : ∀ sd ∈ l, sd ∈ wf.Steps)
    (hpol : ∀ sd ∈ wf.Steps, 1 ≤ (effRetryPolicy sd).MaxAttempts)
    (hpres : ∀ sd ∈ l, (findStep inst sd.ID).isSome)
    (hrun : runSyncSteps l executed inst s = (some e, executed', inst', s')) :
    failedWitness wf inst' e := by
  induction l generalizing executed inst s with
  | nil =>
    rw [runSyncSteps] at hrun
    simp at hrun
  | cons sd rest ih =>
    have hsub' : ∀ sd' ∈ rest, sd' ∈ wf.Steps :=
      fun sd' h => hsub sd' (List.mem_cons_of_mem sd h)
    rw [runSyncSteps] at hrun
    cases hcomp : (findStep inst sd.ID).any (fun si => si.Status = .completed) with
    | true =>
      rw [hcomp] at hrun
      try dsimp only at hrun
      exact ih _ _ _ hsub'
        (fun sd' h => hpres sd' (List.mem_cons_of_mem sd h)) hrun
    | false =>
      rw [hcomp] at hrun
      try dsimp only at hrun
      cases hex : executeStep sd inst s with
      | mk errOpt rest2 =>
        cases rest2 with
        | mk i1 s1 =>
          rw [hex] at hrun
          try dsimp only at hrun
          have hids1 : StepIDsEq i1 inst := by
            have := ids_executeStep sd inst s
            rw [hex] at this
            exact this
          cases errOpt with
          | some e0 =>
            try dsimp only at hrun
            by_cases hreq : sd.Required = true
            · rw [if_pos hreq] at hrun
              injection hrun with h1 hrest
              injection hrest with h2 hrest2
              injection hrest2 with hinst hs
              have he : e0 = e := Option.some.inj h1
              obtain ⟨msg, si, hmsg, hfind, hst, herr⟩ :=
                executeStep_error sd inst s e0 i1 s1
                  (hpol sd (hsub sd (List.mem_cons_self sd rest)))
                  (hpres sd (List.mem_cons_self sd rest)) hex
              refine ⟨sd, hsub sd (List.mem_cons_self sd rest), hreq, si, msg, ?_, hst, herr,
                he ▸ hmsg⟩
              rw [← hinst]
              exact hfind
            · rw [if_neg hreq] at hrun
              refine ih _ _ _ hsub' ?_ hrun
              refine presence_all_of_stepIDsEq ?_ rest
                (fun sd' h => hpres sd' (List.mem_cons_of_mem sd h))
              exact StepIDsEq.trans (StepIDsEq.updStep _ _ _ (fun si => rfl)) hids1
          | none =>
            refine ih _ _ _ hsub' ?_ hrun
            exact presence_all_of_stepIDsEq hids1 rest
              (fun sd' h => hpres sd' (List.mem_cons_of_mem sd h))

theorem runAsyncSteps_err (wf : WorkflowDefinition) (l : List StepDefinition)
    (executed : List String) (inst : WorkflowInstance) (s : Sys)
    (e : String) (errs : List String) (executed' : List String) (inst' : WorkflowInstance)
    (s' : Sys)
    (hsub : ∀ sd ∈ l, sd ∈ wf.Steps)
    (hnd : (l.map (fun sd => sd.ID)).Nodup)
    (hpol : ∀ sd ∈ wf.Steps, 1 ≤ (effRetryPolicy sd).MaxAttempts)
    (hpres : ∀ sd ∈ l, (findStep inst sd.ID).isSome)
    (hrun : runAsyncSteps l executed inst s = (e :: errs, executed', inst', s')) :
    failedWitness wf inst' e := by
  induction l generalizing executed inst s e errs with
  | nil =>
    rw [runAsyncSteps] at hrun
    simp at hrun
  | cons sd rest ih =>
    have hsub' : ∀ sd' ∈ rest, sd' ∈ wf.Steps :=
      fun sd' h => hsub sd' (List.mem_cons_of_mem sd h)
    have hnd' : (rest.map (fun sd => sd.ID)).Nodup := by
      rw [List.map_cons, List.nodup_cons] at hnd
      exact hnd.2
    have hnotin : ∀ sd' ∈ rest, sd.ID ≠ sd'.ID := by
      rw [List.map_cons, List.nodup_cons] at hnd
      intro sd' h heq
      exact hnd.1 (List.mem_map.mpr ⟨sd', h, heq.symm⟩)
    rw [runAsyncSteps] at hrun
    cases hcomp : (findStep inst sd.ID).any (fun si => si.Status = .completed) with
    | true =>
      rw [hcomp] at hrun
      try dsimp only at hrun
      exact ih _ _ _ _ _ hsub' hnd'
        (fun sd' h => hpres sd' (List.mem_cons_of_mem sd h)) hrun
    | false =>
      rw [hcomp] at hrun
      try dsimp only at hrun
      cases hex : executeStep sd inst s with
      | mk errOpt rest2 =>
        cases rest2 with
        | mk i1 s1 =>
          rw [hex] at hrun
          try dsimp only at hrun
          have hids1 : StepIDsEq i1 inst := by
            have := ids_executeStep sd inst s
            rw [hex] at this
            exact this
          cases errOpt with
          | some e0 =>
            try dsimp only at hrun
            by_cases hreq : sd.Required = true
            · rw [if_pos hreq] at hrun
              cases hrec : runAsyncSteps rest (markExecuted executed sd.ID) i1 s1 with
              | mk errs2 rest3 =>
                cases rest3 with
                | mk ex2 rest4 =>
                  cases rest4 with
                  | mk i2 s2 =>
                    rw [hrec] at hrun
                    try dsimp only at hrun
                    injection hrun with h1 hrest
                    injection hrest with h2 hrest2
                    injection hrest2 with hinst hs
                    injection h1 with he herrs
                    obtain ⟨msg, si, hmsg, hfind, hst, herr⟩ :=
                      executeStep_error sd inst s e0 i1 s1
                        (hpol sd (hsub sd (List.mem_cons_self sd rest)))
                        (hpres sd (List.mem_cons_self sd rest)) hex
                    have hpr : findStep i2 sd.ID = findStep i1 sd.ID := by
                      have := findStep_runAsync_notin rest (markExecuted executed sd.ID)
                        i1 s1 sd.ID hnotin
                      rw [hrec] at this
                      exact this
                    refine ⟨sd, hsub sd (List.mem_cons_self sd rest), hreq, si, msg, ?_,
                      hst, herr, he ▸ hmsg⟩
                    rw [← hinst, hpr]
                    exact hfind
            · rw [if_neg hreq] at hrun
              refine ih _ _ _ _ _ hsub' hnd' ?_ hrun
              refine presence_all_of_stepIDsEq ?_ rest
                (fun sd' h => hpres sd' (List.mem_cons_of_mem sd h))
              exact StepIDsEq.trans (StepIDsEq.updStep _ _ _ (fun si => rfl)) hids1
          | none =>
            refine ih _ _ _ _ _ hsub' hnd' ?_ hrun
            exact presence_all_of_stepIDsEq hids1 rest
              (fun sd' h => hpres sd' (List.mem_cons_of_mem sd h))

theorem mem_findReadySteps {wf : WorkflowDefinition} {executed : List String}
    {graph : List (String × List String)} {sd : StepDefinition}
    (h : sd ∈ findReadySteps wf executed graph) : sd ∈ wf.Steps :=
  (List.mem_filter.mp h).1

theorem executeStepsLoop_err (wf : WorkflowDefinition) (graph : List (String × List String))
    (fuel : Nat) (executed : List String) (inst : WorkflowInstance) (s : Sys)
    (e : String) (inst' : WorkflowInstance) (s' : Sys)
    (hnd : (wf.Steps.map (fun sd => sd.ID)).Nodup)
    (hpol : ∀ sd ∈ wf.Steps, 1 ≤ (effRetryPolicy sd).MaxAttempts)
    (hpres : ∀ sd ∈ wf.Steps, (findStep inst sd.ID).isSome)
    (hrun : executeStepsLoop wf graph fuel executed inst s = (some e, inst', s')) :
    failedWitness wf inst' e := by
  induction fuel generalizing executed inst s with
  | zero =>
    rw [executeStepsLoop] at hrun
    simp at hrun
  | succ fuel ih =>
    rw [executeStepsLoop] at hrun
    by_cases hready : (findReadySteps wf executed graph).isEmpty = true
    · rw [if_pos hready] at hrun
      simp at hrun
    · rw [if_neg hready] at hrun
      try dsimp only at hrun
      have hsubsort : ∀ sd ∈ sortByPriorityDesc (findReadySteps wf executed graph),
          sd ∈ wf.Steps :=
        fun sd h => mem_findReadySteps (mem_sortByPriorityDesc h)
      have hndsort :
          ((sortByPriorityDesc (findReadySteps wf executed graph)).map
            (fun sd => sd.ID)).Nodup := by
        have hready_nd : ((findReadySteps wf executed graph).map (fun sd => sd.ID)).Nodup :=
          ((List.filter_sublist wf.Steps).map (fun sd => sd.ID)).nodup hnd
        exact hready_nd.perm
          ((sortByPriorityDesc_perm (findReadySteps wf executed graph)).map
            (fun sd => sd.ID)).symm
      cases hsync : runSyncSteps
          ((sortByPriorityDesc (findReadySteps wf executed graph)).filter
            (fun sd => !sd.Async)) executed inst s with
      | mk errOpt1 rest1 =>
        cases rest1 with
        | mk ex1 rest2 =>
          cases rest2 with
          | mk i1 s1 =>
            rw [hsync] at hrun
            try dsimp only at hrun
            have hids1 : StepIDsEq i1 inst := by
              have := ids_runSyncSteps
                ((sortByPriorityDesc (findReadySteps wf executed graph)).filter
                  (fun sd => !sd.Async)) executed inst s
              rw [hsync] at this
              exact this
            cases errOpt1 with
            | some e1 =>
              injection hrun with h1 hrest
              injection hrest with hinst hs
              have he : e1 = e := Option.some.inj h1
              subst he
              subst hinst
              exact runSyncSteps_err wf _ executed inst s e1 ex1 i1 s1
                (fun sd h => hsubsort sd (List.mem_of_mem_filter h))
                hpol
                (fun sd h => hpres sd (hsubsort sd (List.mem_of_mem_filter h)))
                hsync
            | none =>
              try dsimp only at hrun
              cases hasync : runAsyncSteps
                  ((sortByPriorityDesc (findReadySteps wf executed graph)).filter
                    (fun sd => sd.Async)) ex1 i1 s1 with
              | mk errs rest3 =>
                cases rest3 with
                | mk ex2 rest4 =>
                  cases rest4 with
                  | mk i2 s2 =>
                    rw [hasync] at hrun
                    try dsimp only at hrun
                    have hids2 : StepIDsEq i2 i1 := by
                      have := ids_runAsyncSteps
                        ((sortByPriorityDesc (findReadySteps wf executed graph)).filter
                          (fun sd => sd.Async)) ex1 i1 s1
                      rw [hasync] at this
                      exact this
                    cases errs with
                    | cons e2 errs2 =>
                      injection hrun with h1 hrest
                      injection hrest with hinst hs
                      have he : e2 = e := Option.some.inj h1
                      subst he
                      subst hinst
                      exact runAsyncSteps_err wf
                        ((sortByPriorityDesc (findReadySteps wf executed graph)).filter
                          (fun sd => sd.Async)) ex1 i1 s1 e2 errs2 ex2 i2 s2
                        (fun (sd : StepDefinition) h =>
                          hsubsort sd (List.mem_of_mem_filter h))
                        (((List.filter_sublist
                              (sortByPriorityDesc (findReadySteps wf executed graph))).map
                            (fun (sd : StepDefinition) => sd.ID)).nodup hndsort)
                        hpol
                        (fun (sd : StepDefinition) h =>
                          presence_of_stepIDsEq hids1 sd.ID
                            (hpres sd (hsubsort sd (List.mem_of_mem_filter h))))
                        hasync
                    | nil =>
                      try dsimp only at hrun
                      by_cases hlen : ex2.length = wf.Steps.length
                      · rw [if_pos hlen] at hrun
                        simp at hrun
                      · rw [if_neg hlen] at hrun
                        refine ih ex2 i2 s2 ?_ hrun
                        intro sd hsd
                        exact presence_of_stepIDsEq (StepIDsEq.trans hids2 hids1) sd.ID
                          (hpres sd hsd)

theorem ids_initStepsAux (L : List (Nat × StepDefinition)) (inst : WorkflowInstance)
    (s : Sys) :
    (initStepsAux L inst s).1.Steps.map (fun si => si.StepID)
      = inst.Steps.map (fun si => si.StepID) ++ L.map (fun p => p.2.ID) := by
  induction L generalizing inst s with
  | nil => simp [initStepsAux]
  | cons p rest ih =>
    obtain ⟨i, sd⟩ := p
    rw [initStepsAux]
    try dsimp only
    rw [ih]
    simp

theorem ids_initSteps (wf : WorkflowDefinition) (inst : WorkflowInstance) (s : Sys) :
    (initSteps wf inst s).1.Steps.map (fun si => si.StepID)
      = inst.Steps.map (fun si => si.StepID) ++ wf.Steps.map (fun sd => sd.ID) := by
  unfold initSteps
  rw [ids_initStepsAux]
  congr 1
  have hz : (List.zip (List.range wf.Steps.length) wf.Steps).map Prod.snd = wf.Steps :=
    List.map_snd_zip _ _ (by rw [List.length_range])
  calc (List.zip (List.range wf.Steps.length) wf.Steps).map (fun p => p.2.ID)
      = ((List.zip (List.range wf.Steps.length) wf.Steps).map Prod.snd).map
          (fun sd => sd.ID) := by rw [List.map_map]; rfl
    _ = wf.Steps.map (fun sd => sd.ID) := by rw [hz]

theorem presence_initSteps (wf : WorkflowDefinition) (inst : WorkflowInstance) (s : Sys)
    (hempty : inst.Steps = []) :
    ∀ sd ∈ wf.Steps, (findStep (initSteps wf inst s).1 sd.ID).isSome := by
  intro sd hsd
  rw [findStep_isSome_iff, ids_initSteps, hempty]
  simp only [List.map_nil, List.nil_append]
  exact List.mem_map.mpr ⟨sd, hsd, rfl⟩

theorem executeWorkflow_failed (wf : WorkflowDefinition) (inst0 : WorkflowInstance)
    (s : Sys) (r : WorkflowResult)
    (hnd : (wf.Steps.map (fun sd => sd.ID)).Nodup)
    (hpol : ∀ sd ∈ wf.Steps, 1 ≤ (effRetryPolicy sd).MaxAttempts)
    (hempty : inst0.Steps = [])
    (hres : (executeWorkflow wf inst0 s).1.res = some r)
    (hfail : r.WorkflowInst.Status = .failed) :
    ∃ sd, sd ∈ wf.Steps ∧ sd.Required = true ∧
      ∃ si msg, findStep r.WorkflowInst sd.ID = some si ∧ si.Status = .failed ∧
        si.Error = some msg ∧
        r.WorkflowInst.Error = some (stepFailMsg sd.ID (effRetryPolicy sd).MaxAttempts msg) := by
  rw [executeWorkflow] at hres
  try dsimp only at hres
  split at hres
  · simp at hres
  · rename_i st hupd
    rw [hempty] at hres
    simp only [List.isEmpty_nil, eq_self_iff_true, if_true] at hres
    split at hres
    · rename_i x e1 inst1 s1 heq
      rw [executeSteps] at heq
      try dsimp only at hres
      have hr := Option.some.inj hres
      obtain ⟨sd, hmem, hreq, si, msg, hfind, hst, herr, hwrap⟩ :=
        executeStepsLoop_err wf (buildDependencyGraph wf) (wf.Steps.length + 1) [] _ _
          e1 inst1 s1 hnd hpol (presence_initSteps wf _ _ rfl) heq
      refine ⟨sd, hmem, hreq, si, msg, ?_, hst, herr, ?_⟩
      · rw [← hr]
        exact hfind
      · rw [← hr, hwrap]
    · rename_i x inst1 s1 heq
      split at hres
      · simp at hres
      · rename_i st2 hupd2
        have hr := Option.some.inj hres
        rw [← hr] at hfail
        simp at hfail

/-- C4 amended: every start that returns a result whose workflow instance is
failed (for a registered definition with distinct step IDs and positive
effective attempt counts) exposes a required step whose instance is failed,
and the workflow's error message is that step's error message wrapped as
"step ID failed after N attempts: message" - not the bare step error. -/
theorem c4_amended (o : Orchestrator) (s : Sys) (workflowID : String)
    (input metadata : VMap) (wf : WorkflowDefinition) (r : WorkflowResult)
    (hdef : o.GetWorkflowDef workflowID = .ok wf)
    (hnd : (wf.Steps.map (fun sd => sd.ID)).Nodup)
    (hpol : ∀ sd ∈ wf.Steps, 1 ≤ (effRetryPolicy sd).MaxAttempts)
    (hres : (o.StartWorkflow workflowID input metadata s).1.res = some r)
    (hfail : r.WorkflowInst.Status = .failed) :
    ∃ sd, sd ∈ wf.Steps ∧ sd.Required = true ∧
      ∃ si msg, findStep r.WorkflowInst sd.ID = some si ∧ si.Status = .failed ∧
        si.Error = some msg ∧
        r.WorkflowInst.Error = some (stepFailMsg sd.ID (effRetryPolicy sd).MaxAttempts msg) := by
  rw [Orchestrator.StartWorkflow, hdef] at hres
  try dsimp only at hres
  exact executeWorkflow_failed wf _ _ r hnd hpol rfl hres hfail

/-- The S5 scenario: a single required step failing with message "boom". -/
def boomStep : StepDefinition := { ID := "s1", Name := "S1", Executor := boomExec }

def wfBoom : WorkflowDefinition := { ID := "w", Name := "W", Steps := [boomStep] }

def orchBoom : Orchestrator := { workflows := lset [] "w" wfBoom }

def c4Run : GoRet × Sys := orchBoom.StartWorkflow "w" [] [] {}

def c4res : WorkflowResult :=
  (c4Run.1.res).getD { Success := true, WorkflowInst := dummyInstance }

/-- C4 counterexample: in scenario S5 the failed step's error message is
"boom" but the workflow's error message (both on the result instance and in
the store) is the wrapped "step s1 failed after 1 attempts: boom", so the
workflow error does not equal the failed step's error. -/
theorem c4_counterexample :
    c4res.WorkflowInst.Status = .failed ∧
    (findStep c4res.WorkflowInst "s1").map (fun si => si.Error) = some (some "boom") ∧
    c4res.WorkflowInst.Error = some "step s1 failed after 1 attempts: boom" ∧
    (c4Run.2.store.GetWorkflow "uuid-0").map (fun w => w.Error) =
      .ok (some "step s1 failed after 1 attempts: boom") ∧
    ¬ c4res.WorkflowInst.Error = some "boom" := by
  refine ⟨rfl, rfl, rfl, rfl, ?_⟩
  intro h
  rw [show c4res.WorkflowInst.Error = some "step s1 failed after 1 attempts: boom" from rfl]
    at h
  have hs := Option.some.inj h
  simp at hs

/-- C4 witness: the amended statement applied to the concrete S5 run. -/
theorem c4_amended_witness :
    ∃ sd, sd ∈ wfBoom.Steps ∧ sd.Required = true ∧
      ∃ si msg, findStep c4res.WorkflowInst sd.ID = some si ∧ si.Status = .failed ∧
        si.Error = some msg ∧
        c4res.WorkflowInst.Error =
          some (stepFailMsg sd.ID (effRetryPolicy sd).MaxAttempts msg) :=
  c4_amended orchBoom {} "w" [] [] wfBoom c4res rfl
    (by
      rw [show wfBoom.Steps.map (fun sd => sd.ID) = ["s1"] from rfl]
      exact List.nodup_singleton "s1")
    (by
      intro sd hsd
      simp only [wfBoom, List.mem_singleton] at hsd
      subst hsd
      decide)
    rfl rfl

/-! ## C9 - a heap model of the in-memory store's deep copies

The pure model above cannot express the sharing the Go deep copy exhibits:
deepCopyWorkflow copies each map one entry at a time, so an entry whose value
is itself a map (a reference in Go) is shared between the copy and the
original.  This section models exactly deepCopyWorkflow / deepCopyStep and
SaveWorkflow / GetWorkflow over an explicit heap of map objects: a value is a
scalar or a reference to a heap address, and copying a map copies its entries
(references included) into a freshly allocated object. -/

/-- A Go interface{} value as stored in a map: a scalar or a reference to a
(mutable) nested map object. -/
inductive HValue where
  | prim (n : Int)
  | str (s : String)
  | ref (a : Nat)
deriving DecidableEq, Repr

/-- The entry list of one map object. -/
abbrev HMap := List (String × HValue)

/-- The heap: allocated map objects and the next fresh address. -/
structure Heap where
  objs : List (Nat × HMap) := []
  next : Nat := 0
deriving Repr

/-- make(map[string]interface{}) followed by copying the given entries. -/
def allocMap (h : Heap) (m : HMap) : Nat × Heap :=
  (h.next, { objs := (h.next, m) :: h.objs, next := h.next + 1 })

/-- Dereference a map object (a missing address reads as the empty map). -/
def heapGet (h : Heap) (a : Nat) : HMap :=
  match h.objs.find? (fun om => om.1 == a) with
  | some om => om.2
  | none => []

/-- Overwrite a map object in place. -/
def heapSet (h : Heap) (a : Nat) (m : HMap) : Heap :=
  { h with objs := h.objs.map (fun om => if om.1 == a then (a, m) else om) }

/-- Go map assignment on an entry list. -/
def hmapSet (m : HMap) (k : String) (v : HValue) : HMap := lset m k v

/-- StepInstance with its two maps as heap references (deepCopyStep's
field set). -/
structure HStep where
  ID : String
  StepID : String
  WorkflowInstID : String
  Status : StepStatus
  RetryCount : Int := 0
  DurationMs : Int := 0
  ExecutionOrder : Int := 0
  StartedAt : Option Nat := none
  CompletedAt : Option Nat := none
  Error : Option String := none
  LastRetryAt : Option Nat := none
  Input : Nat
  Output : Nat
deriving DecidableEq, Repr

/-- WorkflowInstance with its four maps as heap references
(deepCopyWorkflow's field set). -/
structure HWorkflow where
  ID : String
  WorkflowID : String
  Status : WorkflowStatus
  CurrentStepID : String := ""
  StartedAt : Nat := 0
  RetryCount : Int := 0
  TraceID : String := ""
  CorrelationID : String := ""
  BusinessID : String := ""
  CompletedAt : Option Nat := none
  Error : Option String := none
  LastRetryAt : Option Nat := none
  Input : Nat
  Output : Nat
  Context : Nat
  Metadata : Nat
  Steps : List HStep := []
deriving DecidableEq, Repr

/-- deepCopyStep: copy the scalar and pointer fields by value and copy each
of the two maps entry by entry into a fresh object (entry values - references
included - are copied verbatim, so nested maps stay shared). -/
def deepCopyStepH (h : Heap) (s : HStep) : HStep × Heap :=
  let r1 := allocMap h (heapGet h s.Input)
  let r2 := allocMap r1.2 (heapGet r1.2 s.Output)
  ({ s with Input := r1.1, Output := r2.1 }, r2.2)

/-- The copy loop over the instance's steps. -/
def deepCopyStepsH : List HStep → Heap → List HStep × Heap
  | [], h => ([], h)
  | s :: rest, h =>
    let r := deepCopyStepH h s
    let rs := deepCopyStepsH rest r.2
    (r.1 :: rs.1, rs.2)

/-- deepCopyWorkflow: scalar and pointer fields by value, the four maps entry
by entry into fresh objects, and the steps via deepCopyStep. -/
def deepCopyWorkflowH (h : Heap) (w : HWorkflow) : HWorkflow × Heap :=
  let r1 := allocMap h (heapGet h w.Input)
  let r2 := allocMap r1.2 (heapGet r1.2 w.Output)
  let r3 := allocMap r2.2 (heapGet r2.2 w.Context)
  let r4 := allocMap r3.2 (heapGet r3.2 w.Metadata)
  let rs := deepCopyStepsH w.Steps r4.2
  let c := { w with Input := r1.1, Output := r2.1, Context := r3.1, Metadata := r4.1, Steps := rs.1 }
  (c, rs.2)

/-- The workflows map of the in-memory store, in the heap model. -/
abbrev HWorkflowStore := List (String × HWorkflow)

/-- SaveWorkflow: store a deep copy of the supplied instance. -/
def saveWorkflowH (σ : HWorkflowStore) (h : Heap) (w : HWorkflow) :
    HWorkflowStore × Heap :=
  let r := deepCopyWorkflowH h w
  (lset σ w.ID r.1, r.2)

/-- GetWorkflow: return a deep copy of the stored instance. -/
def getWorkflowH (σ : HWorkflowStore) (h : Heap) (id : String) :
    Except String (HWorkflow × Heap) :=
  match llookup σ id with
  | some w => .ok (deepCopyWorkflowH h w)
  | none => .error ("workflow not found: " ++ id)

/-- The wire strings of the step statuses (types.go). -/
def stepStatusStr : StepStatus → String
  | .pending => "pending" | .running => "running" | .completed => "completed"
  | .failed => "failed" | .skipped => "skipped" | .retrying => "retrying"

/-- The wire strings of the workflow statuses (types.go). -/
def workflowStatusStr : WorkflowStatus → String
  | .pending => "pending" | .running => "running" | .completed => "completed"
  | .failed => "failed" | .cancelled => "cancelled" | .retrying => "retrying"

def optNatVal : Option Nat → Value
  | none => .str "nil"
  | some n => .int (n : Int)

def optStrVal : Option String → Value
  | none => .str "nil"
  | some s => .str s

/-- Resolve a stored value to a pure rendering, following references up to
the given depth. -/
def resolveVal (h : Heap) : Nat → HValue → Value
  | _, .prim n => .int n
  | _, .str s => .str s
  | 0, .ref _ => .map []
  | fuel + 1, .ref a => .map ((heapGet h a).map (fun kv => (kv.1, resolveVal h fuel kv.2)))

/-- Resolve every entry of a map object. -/
def resolveEntries (h : Heap) (fuel : Nat) (m : HMap) : List (String × Value) :=
  m.map (fun kv => (kv.1, resolveVal h fuel kv.2))

/-- The full observable rendering of a step instance: all fields, with the
two maps resolved through the heap. -/
def resolveStepH (h : Heap) (fuel : Nat) (s : HStep) : Value :=
  .map [("ID", .str s.ID), ("StepID", .str s.StepID),
        ("WorkflowInstID", .str s.WorkflowInstID),
        ("Status", .str (stepStatusStr s.Status)),
        ("StartedAt", optNatVal s.StartedAt), ("CompletedAt", optNatVal s.CompletedAt),
        ("Error", optStrVal s.Error), ("LastRetryAt", optNatVal s.LastRetryAt),
        ("RetryCount", .int s.RetryCount), ("DurationMs", .int s.DurationMs),
        ("ExecutionOrder", .int s.ExecutionOrder),
        ("Input", .map (resolveEntries h fuel (heapGet h s.Input))),
        ("Output", .map (resolveEntries h fuel (heapGet h s.Output)))]

/-- The full observable rendering of a workflow instance. -/
def resolveWorkflowH (h : Heap) (fuel : Nat) (w : HWorkflow) : Value :=
  .map [("ID", .str w.ID), ("WorkflowID", .str w.WorkflowID),
        ("Status", .str (workflowStatusStr w.Status)),
        ("CurrentStepID", .str w.CurrentStepID),
        ("StartedAt", .int (w.StartedAt : Int)), ("RetryCount", .int w.RetryCount),
        ("TraceID", .str w.TraceID), ("CorrelationID", .str w.CorrelationID),
        ("BusinessID", .str w.BusinessID),
        ("CompletedAt", optNatVal w.CompletedAt), ("Error", optStrVal w.Error),
        ("LastRetryAt", optNatVal w.LastRetryAt),
        ("Input", .map (resolveEntries h fuel (heapGet h w.Input))),
        ("Output", .map (resolveEntries h fuel (heapGet h w.Output))),
        ("Context", .map (resolveEntries h fuel (heapGet h w.Context))),
        ("Metadata", .map (resolveEntries h fuel (heapGet h w.Metadata))),
        ("Steps", .map (w.Steps.map (fun s => (s.ID, resolveStepH h fuel s))))]

/-- A value carries references only below the given bound. -/
def refsBelow (n : Nat) : HValue → Bool
  | .ref a => decide (a < n)
  | _ => true

/-- Every entry of a map object carries references only below the bound. -/
def hmapOk (n : Nat) (m : HMap) : Bool := m.all (fun kv => refsBelow n kv.2)

/-- A well-formed heap: object addresses and all references below next. -/
def heapWFB (h : Heap) : Bool :=
  h.objs.all (fun om => decide (om.1 < h.next) && hmapOk h.next om.2)

/-- A workflow whose map addresses all lie below the bound. -/
def hwfAddrsBelow (n : Nat) (w : HWorkflow) : Bool :=
  decide (w.Input < n) && decide (w.Output < n) && decide (w.Context < n) &&
    decide (w.Metadata < n) &&
    w.Steps.all (fun s => decide (s.Input < n) && decide (s.Output < n))

/-- A well-formed store over the heap: every stored instance's addresses lie
below the heap's next address. -/
def storeWFB (σ : HWorkflowStore) (h : Heap) : Bool :=
  σ.all (fun iw => hwfAddrsBelow h.next iw.2)


theorem heapGet_allocMap_self (h : Heap) (m : HMap) :
    heapGet (allocMap h m).2 h.next = m := by
  simp [heapGet, allocMap, List.find?_cons]

theorem heapGet_allocMap_of_lt (h : Heap) (m : HMap) (a : Nat) (ha : a < h.next) :
    heapGet (allocMap h m).2 a = heapGet h a := by
  have hne : (h.next == a) = false := beq_eq_false_iff_ne.mpr (by omega)
  simp only [heapGet, allocMap, List.find?_cons, hne]

theorem next_allocMap (h : Heap) (m : HMap) : (allocMap h m).2.next = h.next + 1 := rfl

theorem fst_allocMap (h : Heap) (m : HMap) : (allocMap h m).1 = h.next := rfl

theorem next_heapSet (h : Heap) (a : Nat) (m : HMap) : (heapSet h a m).next = h.next := rfl

theorem find?_map_heapSet (L : List (Nat × HMap)) (a b : Nat) (m : HMap) (hne : b ≠ a) :
    (L.map fun om => if om.1 == a then (a, m) else om).find? (fun om => om.1 == b)
      = L.find? (fun om => om.1 == b) := by
  induction L with
  | nil => rfl
  | cons om rest ih =>
    rw [List.map_cons, List.find?_cons, List.find?_cons]
    by_cases ha : om.1 = a
    · have hbeq : (om.1 == a) = true := beq_iff_eq.mpr ha
      rw [if_pos hbeq]
      have h1 : ((a, m).1 == b) = false := beq_eq_false_iff_ne.mpr (fun he => hne he.symm)
      have h2 : (om.1 == b) = false := by
        rw [ha]; exact beq_eq_false_iff_ne.mpr (fun he => hne he.symm)
      rw [h1, h2]
      exact ih
    · have hbeq : (om.1 == a) = false := beq_eq_false_iff_ne.mpr ha
      rw [if_neg (by rw [hbeq]; exact Bool.false_ne_true)]
      cases hb : (om.1 == b) with
      | true => rfl
      | false => exact ih

theorem heapGet_heapSet_ne (h : Heap) (a b : Nat) (m : HMap) (hne : b ≠ a) :
    heapGet (heapSet h a m) b = heapGet h b := by
  unfold heapGet
  rw [show (heapSet h a m).objs
      = h.objs.map (fun om : Nat × HMap => if om.1 == a then (a, m) else om) from rfl]
  rw [find?_map_heapSet h.objs a b m hne]

/-- One heap extends another: the next pointer does not shrink and every
object below the old next is unchanged. -/
def HeapExt (h h2 : Heap) : Prop :=
  h.next ≤ h2.next ∧ ∀ a, a < h.next → heapGet h2 a = heapGet h a

theorem heapExt_refl (h : Heap) : HeapExt h h := ⟨le_refl _, fun _ _ => rfl⟩

theorem heapExt_trans {h1 h2 h3 : Heap} (a : HeapExt h1 h2) (b : HeapExt h2 h3) :
    HeapExt h1 h3 :=
  ⟨le_trans a.1 b.1, fun x hx => (b.2 x (lt_of_lt_of_le hx a.1)).trans (a.2 x hx)⟩

theorem heapExt_allocMap (h : Heap) (m : HMap) : HeapExt h (allocMap h m).2 :=
  ⟨Nat.le_succ _, fun a ha => heapGet_allocMap_of_lt h m a ha⟩

theorem heapExt_deepCopyStepH (h : Heap) (s : HStep) : HeapExt h (deepCopyStepH h s).2 :=
  heapExt_trans (heapExt_allocMap h _) (heapExt_allocMap _ _)

theorem heapExt_deepCopyStepsH :
    ∀ (L : List HStep) (h : Heap), HeapExt h (deepCopyStepsH L h).2
  | [], h => heapExt_refl h
  | s :: rest, h =>
    heapExt_trans (heapExt_deepCopyStepH h s) (heapExt_deepCopyStepsH rest _)

theorem heapExt_deepCopyWorkflowH (h : Heap) (w : HWorkflow) :
    HeapExt h (deepCopyWorkflowH h w).2 :=
  heapExt_trans (heapExt_allocMap h _)
    (heapExt_trans (heapExt_allocMap _ _)
      (heapExt_trans (heapExt_allocMap _ _)
        (heapExt_trans (heapExt_allocMap _ _) (heapExt_deepCopyStepsH _ _))))

theorem deepCopyStepH_fields (h : Heap) (s : HStep) :
    (deepCopyStepH h s).1 = { s with Input := h.next, Output := h.next + 1 } := rfl

theorem next_deepCopyStepH (h : Heap) (s : HStep) :
    (deepCopyStepH h s).2.next = h.next + 2 := rfl

theorem heapGet_deepCopyStepH_input (h : Heap) (s : HStep) :
    heapGet (deepCopyStepH h s).2 h.next = heapGet h s.Input := by
  show heapGet (allocMap (allocMap h (heapGet h s.Input)).2 _).2 h.next = _
  rw [heapGet_allocMap_of_lt _ _ _ (by rw [next_allocMap]; omega)]
  exact heapGet_allocMap_self h _

theorem heapGet_deepCopyStepH_output (h : Heap) (s : HStep) (ho : s.Output < h.next) :
    heapGet (deepCopyStepH h s).2 (h.next + 1) = heapGet h s.Output := by
  show heapGet (allocMap (allocMap h (heapGet h s.Input)).2
      (heapGet (allocMap h (heapGet h s.Input)).2 s.Output)).2 (h.next + 1) = _
  rw [show h.next + 1 = (allocMap h (heapGet h s.Input)).2.next from rfl]
  rw [heapGet_allocMap_self]
  exact heapGet_allocMap_of_lt h _ s.Output ho

theorem deepCopyWorkflowH_addrs (h : Heap) (w : HWorkflow) :
    (deepCopyWorkflowH h w).1.Input = h.next ∧ (deepCopyWorkflowH h w).1.Output = h.next + 1
      ∧ (deepCopyWorkflowH h w).1.Context = h.next + 2
      ∧ (deepCopyWorkflowH h w).1.Metadata = h.next + 3 :=
  ⟨rfl, rfl, rfl, rfl⟩

theorem heapWFB_closed (h : Heap) (hwf : heapWFB h = true) (a : Nat) :
    hmapOk h.next (heapGet h a) = true := by
  unfold heapGet
  cases hf : h.objs.find? (fun om => om.1 == a) with
  | none => rfl
  | some om =>
    have hmem := List.mem_of_find?_eq_some hf
    rw [heapWFB, List.all_eq_true] at hwf
    have hb := hwf om hmem
    rw [Bool.and_eq_true] at hb
    exact hb.2

theorem mem_of_llookup_some {α : Type} {l : List (String × α)} {k : String} {v : α}
    (hl : llookup l k = some v) : (k, v) ∈ l := by
  induction l with
  | nil => exact absurd hl (by rw [llookup]; exact Option.noConfusion)
  | cons p rest ih =>
    rw [llookup] at hl
    split at hl
    · rename_i heq
      injection hl with hv
      rw [← hv]
      rw [show p = (p.1, p.2) from rfl, heq]
      exact List.mem_cons_self _ _
    · exact List.mem_cons_of_mem _ (ih hl)

theorem storeWFB_lookup (σ : HWorkflowStore) (h : Heap) (id : String) (w : HWorkflow)
    (hswf : storeWFB σ h = true) (hl : llookup σ id = some w) :
    hwfAddrsBelow h.next w = true := by
  rw [storeWFB, List.all_eq_true] at hswf
  exact hswf (id, w) (mem_of_llookup_some hl)

theorem resolveVal_agree (N : Nat) (g g2 : Heap)
    (hclosed : ∀ a, a < N → hmapOk N (heapGet g a) = true)
    (hagree : ∀ a, a < N → heapGet g2 a = heapGet g a) :
    ∀ (fuel : Nat) (v : HValue), refsBelow N v = true →
      resolveVal g2 fuel v = resolveVal g fuel v := by
  intro fuel
  induction fuel with
  | zero => intro v _; cases v <;> rfl
  | succ fuel ih =>
    intro v hv
    cases v with
    | prim n => rfl
    | str s => rfl
    | ref a =>
      have ha : a < N := by
        rw [refsBelow] at hv
        exact of_decide_eq_true hv
      simp only [resolveVal]
      rw [hagree a ha]
      have hok := hclosed a ha
      rw [hmapOk, List.all_eq_true] at hok
      have hmapeq : ∀ kv ∈ heapGet g a,
          (fun kv : String × HValue => (kv.1, resolveVal g2 fuel kv.2)) kv
            = (fun kv : String × HValue => (kv.1, resolveVal g fuel kv.2)) kv := by
        intro kv hkv
        simp only
        rw [ih kv.2 (hok kv hkv)]
      rw [List.map_congr_left hmapeq]

theorem resolveEntries_agree (N fuel : Nat) (g g2 : Heap) (m : HMap)
    (hclosed : ∀ a, a < N → hmapOk N (heapGet g a) = true)
    (hagree : ∀ a, a < N → heapGet g2 a = heapGet g a)
    (hm : hmapOk N m = true) :
    resolveEntries g2 fuel m = resolveEntries g fuel m := by
  rw [hmapOk, List.all_eq_true] at hm
  unfold resolveEntries
  apply List.map_congr_left
  intro kv hkv
  show (kv.1, resolveVal g2 fuel kv.2) = (kv.1, resolveVal g fuel kv.2)
  rw [resolveVal_agree N g g2 hclosed hagree fuel kv.2 (hm kv hkv)]

theorem resolveStepH_agree (N fuel : Nat) (g g2 : Heap) (s : HStep)
    (hclosed : ∀ a, a < N → hmapOk N (heapGet g a) = true)
    (hagree : ∀ a, a < N → heapGet g2 a = heapGet g a)
    (hi : s.Input < N) (ho : s.Output < N) :
    resolveStepH g2 fuel s = resolveStepH g fuel s := by
  unfold resolveStepH
  rw [hagree s.Input hi, hagree s.Output ho,
    resolveEntries_agree N fuel g g2 _ hclosed hagree (hclosed s.Input hi),
    resolveEntries_agree N fuel g g2 _ hclosed hagree (hclosed s.Output ho)]

theorem resolveWorkflowH_agree (N fuel : Nat) (g g2 : Heap) (w : HWorkflow)
    (hclosed : ∀ a, a < N → hmapOk N (heapGet g a) = true)
    (hagree : ∀ a, a < N → heapGet g2 a = heapGet g a)
    (haddr : hwfAddrsBelow N w = true) :
    resolveWorkflowH g2 fuel w = resolveWorkflowH g fuel w := by
  rw [hwfAddrsBelow] at haddr
  simp only [Bool.and_eq_true, decide_eq_true_eq, List.all_eq_true] at haddr
  obtain ⟨⟨⟨⟨hi, ho⟩, hc⟩, hm⟩, hsteps⟩ := haddr
  unfold resolveWorkflowH
  rw [hagree w.Input hi, hagree w.Output ho, hagree w.Context hc, hagree w.Metadata hm,
    resolveEntries_agree N fuel g g2 _ hclosed hagree (hclosed _ hi),
    resolveEntries_agree N fuel g g2 _ hclosed hagree (hclosed _ ho),
    resolveEntries_agree N fuel g g2 _ hclosed hagree (hclosed _ hc),
    resolveEntries_agree N fuel g g2 _ hclosed hagree (hclosed _ hm)]
  have hst : w.Steps.map (fun s => (s.ID, resolveStepH g2 fuel s))
      = w.Steps.map (fun s => (s.ID, resolveStepH g fuel s)) := by
    apply List.map_congr_left
    intro s hs
    have hsb := hsteps s hs
    show (s.ID, resolveStepH g2 fuel s) = (s.ID, resolveStepH g fuel s)
    rw [resolveStepH_agree N fuel g g2 s hclosed hagree hsb.1 hsb.2]
  rw [hst]

/-- A copied step resolves exactly as the original did in the source heap. -/
theorem resolveStepH_copy (N fuel : Nat) (g0 gF : Heap) (st : HStep) (iN oN : Nat)
    (hclosed : ∀ a, a < N → hmapOk N (heapGet g0 a) = true)
    (hagree : ∀ a, a < N → heapGet gF a = heapGet g0 a)
    (hi0 : st.Input < N) (ho0 : st.Output < N)
    (hIn : heapGet gF iN = heapGet g0 st.Input)
    (hOut : heapGet gF oN = heapGet g0 st.Output) :
    resolveStepH gF fuel { st with Input := iN, Output := oN } = resolveStepH g0 fuel st := by
  unfold resolveStepH
  dsimp only
  rw [hIn, hOut,
    resolveEntries_agree N fuel g0 gF _ hclosed hagree (hclosed st.Input hi0),
    resolveEntries_agree N fuel g0 gF _ hclosed hagree (hclosed st.Output ho0)]

/-- The copied step list resolves (in any further extension of the heap the
copy left) exactly as the original steps did in the source heap. -/
theorem deepCopyStepsH_render (N fuel : Nat) (g0 : Heap)
    (hclosed : ∀ a, a < N → hmapOk N (heapGet g0 a) = true)
    (hN : N ≤ g0.next) :
    ∀ (L : List HStep) (g : Heap), HeapExt g0 g →
      (∀ st ∈ L, st.Input < N ∧ st.Output < N) →
      ∀ gF, HeapExt (deepCopyStepsH L g).2 gF →
        (deepCopyStepsH L g).1.map (fun c => (c.ID, resolveStepH gF fuel c))
          = L.map (fun st => (st.ID, resolveStepH g0 fuel st)) := by
  intro L
  induction L with
  | nil => intro g _ _ gF _; rfl
  | cons st rest ih =>
    intro g hext hmem gF hF
    have hstm := hmem st (List.mem_cons_self _ _)
    have hi0 : st.Input < N := hstm.1
    have ho0 : st.Output < N := hstm.2
    have hoG : st.Output < g.next := lt_of_lt_of_le ho0 (le_trans hN hext.1)
    have hF2 : HeapExt (deepCopyStepsH rest (deepCopyStepH g st).2).2 gF := hF
    have htail := ih (deepCopyStepH g st).2 (heapExt_trans hext (heapExt_deepCopyStepH g st))
      (fun x hx => hmem x (List.mem_cons_of_mem _ hx)) gF hF2
    have hext2 : HeapExt (deepCopyStepH g st).2 gF :=
      heapExt_trans (heapExt_deepCopyStepsH rest _) hF2
    have hextAll : HeapExt g0 gF :=
      heapExt_trans hext (heapExt_trans (heapExt_deepCopyStepH g st) hext2)
    have hIn : heapGet gF g.next = heapGet g0 st.Input := by
      rw [hext2.2 g.next (by rw [next_deepCopyStepH]; omega)]
      rw [heapGet_deepCopyStepH_input]
      exact hext.2 st.Input (lt_of_lt_of_le hi0 hN)
    have hOut : heapGet gF (g.next + 1) = heapGet g0 st.Output := by
      rw [hext2.2 (g.next + 1) (by rw [next_deepCopyStepH]; omega)]
      rw [heapGet_deepCopyStepH_output g st hoG]
      exact hext.2 st.Output (lt_of_lt_of_le ho0 hN)
    show ((deepCopyStepH g st).1 :: (deepCopyStepsH rest (deepCopyStepH g st).2).1).map
        (fun c => (c.ID, resolveStepH gF fuel c))
      = (st :: rest).map (fun s => (s.ID, resolveStepH g0 fuel s))
    rw [List.map_cons, List.map_cons, htail]
    congr 1
    rw [deepCopyStepH_fields]
    dsimp only
    rw [resolveStepH_copy N fuel g0 gF st g.next (g.next + 1) hclosed
      (fun a ha => hextAll.2 a (lt_of_lt_of_le ha hN)) hi0 ho0 hIn hOut]

/-- The heap after the first allocation of deepCopyWorkflow. -/
def dcw1 (g : Heap) (w : HWorkflow) : Heap := (allocMap g (heapGet g w.Input)).2

/-- ... after the second allocation. -/
def dcw2 (g : Heap) (w : HWorkflow) : Heap :=
  (allocMap (dcw1 g w) (heapGet (dcw1 g w) w.Output)).2

/-- ... after the third allocation. -/
def dcw3 (g : Heap) (w : HWorkflow) : Heap :=
  (allocMap (dcw2 g w) (heapGet (dcw2 g w) w.Context)).2

/-- ... after the fourth allocation. -/
def dcw4 (g : Heap) (w : HWorkflow) : Heap :=
  (allocMap (dcw3 g w) (heapGet (dcw3 g w) w.Metadata)).2

theorem deepCopyWorkflowH_snd (g : Heap) (w : HWorkflow) :
    (deepCopyWorkflowH g w).2 = (deepCopyStepsH w.Steps (dcw4 g w)).2 := rfl

theorem deepCopyWorkflowH_fst (g : Heap) (w : HWorkflow) :
    (deepCopyWorkflowH g w).1 = { w with Input := g.next, Output := g.next + 1, Context := g.next + 2, Metadata := g.next + 3, Steps := (deepCopyStepsH w.Steps (dcw4 g w)).1 } := rfl

theorem next_dcw4 (g : Heap) (w : HWorkflow) : (dcw4 g w).next = g.next + 4 := rfl

theorem heapGet_dcw4_input (g : Heap) (w : HWorkflow) :
    heapGet (dcw4 g w) g.next = heapGet g w.Input := by
  have h4 : heapGet (dcw4 g w) g.next = heapGet (dcw3 g w) g.next :=
    heapGet_allocMap_of_lt (dcw3 g w) _ g.next (by show g.next < g.next + 3; omega)
  have h3 : heapGet (dcw3 g w) g.next = heapGet (dcw2 g w) g.next :=
    heapGet_allocMap_of_lt (dcw2 g w) _ g.next (by show g.next < g.next + 2; omega)
  have h2 : heapGet (dcw2 g w) g.next = heapGet (dcw1 g w) g.next :=
    heapGet_allocMap_of_lt (dcw1 g w) _ g.next (by show g.next < g.next + 1; omega)
  have h1 : heapGet (dcw1 g w) g.next = heapGet g w.Input := heapGet_allocMap_self g _
  rw [h4, h3, h2, h1]

theorem heapGet_dcw4_output (g : Heap) (w : HWorkflow) (hw : w.Output < g.next) :
    heapGet (dcw4 g w) (g.next + 1) = heapGet g w.Output := by
  have h4 : heapGet (dcw4 g w) (g.next + 1) = heapGet (dcw3 g w) (g.next + 1) :=
    heapGet_allocMap_of_lt (dcw3 g w) _ _ (by show g.next + 1 < g.next + 3; omega)
  have h3 : heapGet (dcw3 g w) (g.next + 1) = heapGet (dcw2 g w) (g.next + 1) :=
    heapGet_allocMap_of_lt (dcw2 g w) _ _ (by show g.next + 1 < g.next + 2; omega)
  have h2 : heapGet (dcw2 g w) (g.next + 1) = heapGet (dcw1 g w) w.Output :=
    heapGet_allocMap_self (dcw1 g w) _
  have h1 : heapGet (dcw1 g w) w.Output = heapGet g w.Output :=
    heapGet_allocMap_of_lt g _ w.Output hw
  rw [h4, h3, h2, h1]

theorem heapGet_dcw4_context (g : Heap) (w : HWorkflow) (hw : w.Context < g.next) :
    heapGet (dcw4 g w) (g.next + 2) = heapGet g w.Context := by
  have h4 : heapGet (dcw4 g w) (g.next + 2) = heapGet (dcw3 g w) (g.next + 2) :=
    heapGet_allocMap_of_lt (dcw3 g w) _ _ (by show g.next + 2 < g.next + 3; omega)
  have h3 : heapGet (dcw3 g w) (g.next + 2) = heapGet (dcw2 g w) w.Context :=
    heapGet_allocMap_self (dcw2 g w) _
  have h2 : heapGet (dcw2 g w) w.Context = heapGet (dcw1 g w) w.Context :=
    heapGet_allocMap_of_lt (dcw1 g w) _ w.Context (by show w.Context < g.next + 1; omega)
  have h1 : heapGet (dcw1 g w) w.Context = heapGet g w.Context :=
    heapGet_allocMap_of_lt g _ w.Context hw
  rw [h4, h3, h2, h1]

theorem heapGet_dcw4_metadata (g : Heap) (w : HWorkflow) (hw : w.Metadata < g.next) :
    heapGet (dcw4 g w) (g.next + 3) = heapGet g w.Metadata := by
  have h4 : heapGet (dcw4 g w) (g.next + 3) = heapGet (dcw3 g w) w.Metadata :=
    heapGet_allocMap_self (dcw3 g w) _
  have h3 : heapGet (dcw3 g w) w.Metadata = heapGet (dcw2 g w) w.Metadata :=
    heapGet_allocMap_of_lt (dcw2 g w) _ w.Metadata (by show w.Metadata < g.next + 2; omega)
  have h2 : heapGet (dcw2 g w) w.Metadata = heapGet (dcw1 g w) w.Metadata :=
    heapGet_allocMap_of_lt (dcw1 g w) _ w.Metadata (by show w.Metadata < g.next + 1; omega)
  have h1 : heapGet (dcw1 g w) w.Metadata = heapGet g w.Metadata :=
    heapGet_allocMap_of_lt g _ w.Metadata hw
  rw [h4, h3, h2, h1]

theorem heapExt_dcw4 (g : Heap) (w : HWorkflow) : HeapExt g (dcw4 g w) :=
  heapExt_trans (heapExt_allocMap g _)
    (heapExt_trans (heapExt_allocMap _ _)
      (heapExt_trans (heapExt_allocMap _ _) (heapExt_allocMap _ _)))

/-- The deep copy of a workflow instance renders, in the heap the copy
produced, exactly as the original rendered in the source heap. -/
theorem deepCopyWorkflowH_render (N fuel : Nat) (g : Heap) (w0 : HWorkflow)
    (hN : N ≤ g.next)
    (haddr : hwfAddrsBelow N w0 = true)
    (hclosed : ∀ a, a < N → hmapOk N (heapGet g a) = true) :
    resolveWorkflowH (deepCopyWorkflowH g w0).2 fuel (deepCopyWorkflowH g w0).1
      = resolveWorkflowH g fuel w0 := by
  rw [hwfAddrsBelow] at haddr
  simp only [Bool.and_eq_true, decide_eq_true_eq, List.all_eq_true] at haddr
  obtain ⟨⟨⟨⟨hi, ho⟩, hc⟩, hm⟩, hsteps⟩ := haddr
  have hextgF : HeapExt g (deepCopyWorkflowH g w0).2 := heapExt_deepCopyWorkflowH g w0
  have hagree : ∀ a, a < N → heapGet (deepCopyWorkflowH g w0).2 a = heapGet g a :=
    fun a ha => hextgF.2 a (lt_of_lt_of_le ha hN)
  have hext4F : HeapExt (dcw4 g w0) (deepCopyWorkflowH g w0).2 := by
    rw [deepCopyWorkflowH_snd]
    exact heapExt_deepCopyStepsH w0.Steps (dcw4 g w0)
  have hIn : heapGet (deepCopyWorkflowH g w0).2 g.next = heapGet g w0.Input := by
    rw [hext4F.2 g.next (by rw [next_dcw4]; omega)]
    exact heapGet_dcw4_input g w0
  have hOut : heapGet (deepCopyWorkflowH g w0).2 (g.next + 1) = heapGet g w0.Output := by
    rw [hext4F.2 (g.next + 1) (by rw [next_dcw4]; omega)]
    exact heapGet_dcw4_output g w0 (lt_of_lt_of_le ho hN)
  have hCtx : heapGet (deepCopyWorkflowH g w0).2 (g.next + 2) = heapGet g w0.Context := by
    rw [hext4F.2 (g.next + 2) (by rw [next_dcw4]; omega)]
    exact heapGet_dcw4_context g w0 (lt_of_lt_of_le hc hN)
  have hMeta : heapGet (deepCopyWorkflowH g w0).2 (g.next + 3) = heapGet g w0.Metadata := by
    rw [hext4F.2 (g.next + 3) (by rw [next_dcw4]; omega)]
    exact heapGet_dcw4_metadata g w0 (lt_of_lt_of_le hm hN)
  have hFF : HeapExt (deepCopyStepsH w0.Steps (dcw4 g w0)).2 (deepCopyWorkflowH g w0).2 := by
    rw [deepCopyWorkflowH_snd]
    exact heapExt_refl _
  have hstepsEq := deepCopyStepsH_render N fuel g hclosed hN w0.Steps (dcw4 g w0)
    (heapExt_dcw4 g w0) (fun st hst => hsteps st hst) (deepCopyWorkflowH g w0).2 hFF
  rw [deepCopyWorkflowH_fst]
  unfold resolveWorkflowH
  dsimp only
  rw [hIn, hOut, hCtx, hMeta,
    resolveEntries_agree N fuel g _ _ hclosed hagree (hclosed _ hi),
    resolveEntries_agree N fuel g _ _ hclosed hagree (hclosed _ ho),
    resolveEntries_agree N fuel g _ _ hclosed hagree (hclosed _ hc),
    resolveEntries_agree N fuel g _ _ hclosed hagree (hclosed _ hm)]
  rw [hstepsEq]

/-- Concrete heap for the C9 scenario: object 0 is a nested map {b: 1},
object 1 is the instance's Input map {a: &0}; 2, 3, 4 are empty maps. -/
def c9heap : Heap :=
  { objs := [(0, [("b", .prim 1)]), (1, [("a", .ref 0)]), (2, []), (3, []), (4, [])],
    next := 5 }

/-- The stored instance of the C9 scenario. -/
def c9w0 : HWorkflow :=
  { ID := "wf", WorkflowID := "d", Status := .running,
    Input := 1, Output := 2, Context := 3, Metadata := 4 }

/-- The store of the C9 scenario. -/
def c9store : HWorkflowStore := [("wf", c9w0)]

/-- The first read's result. -/
def c9get1 : HWorkflow × Heap := deepCopyWorkflowH c9heap c9w0

/-- The heap after mutating the nested map reached through the first read's
copy (copy.Input["a"]["b"] = 2 in Go terms). -/
def c9mutHeap : Heap := heapSet c9get1.2 0 (hmapSet (heapGet c9get1.2 0) "b" (.prim 2))

/-- The second read's result, after the mutation. -/
def c9get2 : HWorkflow × Heap := deepCopyWorkflowH c9mutHeap c9w0

/-- C9: counterexample - the deep copy copies each map one level deep only, so
a map nested inside Input is shared between the returned copy and the store;
mutating it through the copy changes what the next read returns: the nested
value b resolves to 1 before and 2 after. -/
theorem c9_counterexample :
    ∃ (σ : HWorkflowStore) (h : Heap) (id : String) (w1 : HWorkflow) (h1 : Heap)
      (a : Nat) (w2 : HWorkflow) (h2 : Heap),
      heapWFB h = true ∧ storeWFB σ h = true ∧
      getWorkflowH σ h id = .ok (w1, h1) ∧
      llookup (heapGet h1 w1.Input) "a" = some (.ref a) ∧
      getWorkflowH σ (heapSet h1 a (hmapSet (heapGet h1 a) "b" (.prim 2))) id = .ok (w2, h2) ∧
      resolveEntries h2 1 (heapGet h2 w2.Input) ≠ resolveEntries h1 1 (heapGet h1 w1.Input) := by
  refine ⟨c9store, c9heap, "wf", c9get1.1, c9get1.2, 0, c9get2.1, c9get2.2,
    rfl, rfl, rfl, rfl, rfl, ?_⟩
  intro hcontra
  have hL : resolveEntries c9get2.2 1 (heapGet c9get2.2 c9get2.1.Input)
      = [("a", Value.map [("b", Value.int 2)])] := rfl
  have hR : resolveEntries c9get1.2 1 (heapGet c9get1.2 c9get1.1.Input)
      = [("a", Value.map [("b", Value.int 1)])] := rfl
  rw [hL, hR] at hcontra
  simp at hcontra

/-- C9 (amended): reads return one-level deep copies. Mutating the top-level
structure of a returned instance - here, writing any key into the returned
copy's Input map object - never changes what a subsequent GetWorkflow
returns, and the copy preserves the nullability of the optional pointer
fields CompletedAt, Error and LastRetryAt; values nested inside the maps,
however, are shared with the store (see the counterexample). -/
theorem c9_amended (σ : HWorkflowStore) (h : Heap) (id : String)
    (w1 : HWorkflow) (h1 : Heap) (k : String) (v : HValue) (fuel : Nat)
    (hwf : heapWFB h = true) (hswf : storeWFB σ h = true)
    (hget : getWorkflowH σ h id = .ok (w1, h1)) :
    ∃ w0, llookup σ id = some w0 ∧
      w1.CompletedAt = w0.CompletedAt ∧ w1.Error = w0.Error ∧
      w1.LastRetryAt = w0.LastRetryAt ∧
      ∃ w2 h2,
        getWorkflowH σ (heapSet h1 w1.Input (hmapSet (heapGet h1 w1.Input) k v)) id
          = .ok (w2, h2) ∧
        resolveWorkflowH h2 fuel w2 = resolveWorkflowH h1 fuel w1 := by
  unfold getWorkflowH at hget
  cases hl : llookup σ id with
  | none =>
    rw [hl] at hget
    exact absurd hget (by simp)
  | some w0 =>
    rw [hl] at hget
    try dsimp only at hget
    injection hget with hpair
    have hw1 : (deepCopyWorkflowH h w0).1 = w1 := by rw [hpair]
    have hh1 : (deepCopyWorkflowH h w0).2 = h1 := by rw [hpair]
    have hIeq : w1.Input = h.next := by rw [← hw1]; rfl
    have haddr : hwfAddrsBelow h.next w0 = true := storeWFB_lookup σ h id w0 hswf hl
    have hclosed : ∀ a, a < h.next → hmapOk h.next (heapGet h a) = true :=
      fun a _ => heapWFB_closed h hwf a
    have hexth1 : HeapExt h h1 := by
      rw [← hh1]
      exact heapExt_deepCopyWorkflowH h w0
    have hagree2 : ∀ a, a < h.next →
        heapGet (heapSet h1 w1.Input (hmapSet (heapGet h1 w1.Input) k v)) a = heapGet h a := by
      intro a ha
      rw [heapGet_heapSet_ne h1 w1.Input a _ (by rw [hIeq]; omega)]
      exact hexth1.2 a ha
    have hclosed2 : ∀ a, a < h.next →
        hmapOk h.next (heapGet (heapSet h1 w1.Input (hmapSet (heapGet h1 w1.Input) k v)) a)
          = true := by
      intro a ha
      rw [hagree2 a ha]
      exact hclosed a ha
    have hN2 : h.next ≤ (heapSet h1 w1.Input (hmapSet (heapGet h1 w1.Input) k v)).next := by
      rw [next_heapSet]
      exact hexth1.1
    refine ⟨w0, rfl, by rw [← hw1]; rfl, by rw [← hw1]; rfl, by rw [← hw1]; rfl,
      (deepCopyWorkflowH (heapSet h1 w1.Input (hmapSet (heapGet h1 w1.Input) k v)) w0).1,
      (deepCopyWorkflowH (heapSet h1 w1.Input (hmapSet (heapGet h1 w1.Input) k v)) w0).2,
      ?_, ?_⟩
    · unfold getWorkflowH
      rw [hl]
    · calc
        resolveWorkflowH
            (deepCopyWorkflowH (heapSet h1 w1.Input (hmapSet (heapGet h1 w1.Input) k v)) w0).2
            fuel
            (deepCopyWorkflowH (heapSet h1 w1.Input (hmapSet (heapGet h1 w1.Input) k v)) w0).1
            = resolveWorkflowH (heapSet h1 w1.Input (hmapSet (heapGet h1 w1.Input) k v)) fuel w0 :=
          deepCopyWorkflowH_render h.next fuel _ w0 hN2 haddr hclosed2
        _ = resolveWorkflowH h fuel w0 :=
          resolveWorkflowH_agree h.next fuel h _ w0 hclosed hagree2 haddr
        _ = resolveWorkflowH h1 fuel w1 := by
          rw [← hw1, ← hh1]
          exact (deepCopyWorkflowH_render h.next fuel h w0 (le_refl _) haddr hclosed).symm

theorem c9_amended_witness :
    heapWFB c9heap = true ∧ storeWFB c9store c9heap = true ∧
    getWorkflowH c9store c9heap "wf" = .ok (c9get1.1, c9get1.2) ∧
    (∃ w0, llookup c9store "wf" = some w0 ∧
      c9get1.1.CompletedAt = w0.CompletedAt ∧ c9get1.1.Error = w0.Error ∧
      c9get1.1.LastRetryAt = w0.LastRetryAt ∧
      ∃ w2 h2,
        getWorkflowH c9store
            (heapSet c9get1.2 c9get1.1.Input
              (hmapSet (heapGet c9get1.2 c9get1.1.Input) "x" (.prim 7))) "wf"
          = .ok (w2, h2) ∧
        resolveWorkflowH h2 1 w2 = resolveWorkflowH c9get1.2 1 c9get1.1) :=
  ⟨rfl, rfl, rfl,
    c9_amended c9store c9heap "wf" c9get1.1 c9get1.2 "x" (.prim 7) 1 rfl rfl rfl⟩
end Orchwf
